import Mathlib

/-!
Verification of the devback snapshot/backup engine against its
natural-language specification.  Go functions from the source are
shallowly embedded as Lean functions; strings are modelled as lists of
characters (`Str`), filesystem and OS effects as explicit oracles, and
mutation as state passing.
-/

set_option autoImplicit false

namespace Devback

/-- Strings are modelled as lists of characters (Go iterates bytes/runes;
for the ASCII inputs of this spec the two views coincide). -/
abbrev Str := List Char

/-- Coerce a Lean string literal to the list-of-characters model. -/
def str (s : String) : Str := s.data

/-- Go strings.Split(s, sep) for a one-character separator.
Split("", sep) = [""], separators produce empty fields. -/
def splitOnChar (sep : Char) : Str → List Str
  | [] => [[]]
  | c :: rest =>
    let r := splitOnChar sep rest
    if c = sep then [] :: r
    else
      match r with
      | [] => [[c]]
      | h :: t => (c :: h) :: t

/-- Go strings.TrimSuffix: drop the suffix when present, else identity. -/
def trimSuffixStr (suffix : Str) (s : Str) : Str :=
  if suffix.isSuffixOf s then s.take (s.length - suffix.length) else s

/-- The part of s after the last occurrence of c (all of s when c is
absent) — Go s[strings.LastIndex(s, c)+1:]. -/
def afterLastChar (c : Char) (s : Str) : Str :=
  (s.reverse.takeWhile (fun x => x ≠ c)).reverse

/-- Split at the first occurrence of sep: some (before, after), or none
when sep is absent — Go strings.Index plus slicing. -/
def breakAtChar (sep : Char) : Str → Option (Str × Str)
  | [] => none
  | c :: rest =>
    if c = sep then some ([], rest)
    else
      match breakAtChar sep rest with
      | none => none
      | some (l, r) => some (c :: l, r)

/-- Go strings.Trim(s, string(c)): drop c from both ends. -/
def trimCharBoth (c : Char) (s : Str) : Str :=
  ((s.dropWhile (fun x => x = c)).reverse.dropWhile (fun x => x = c)).reverse

/-- Go strings.Contains: pat occurs as a contiguous run inside s. -/
def containsSeq (pat : Str) : Str → Bool
  | [] => pat.isEmpty
  | c :: rest => pat.isPrefixOf (c :: rest) || containsSeq pat rest

/-- Valid first character of a URL scheme (net/url getScheme). -/
def isSchemeHeadChar (c : Char) : Bool :=
  (Char.toNat 'a' ≤ c.toNat ∧ c.toNat ≤ Char.toNat 'z')
    ∨ (Char.toNat 'A' ≤ c.toNat ∧ c.toNat ≤ Char.toNat 'Z')

/-- Valid non-first character of a URL scheme (net/url getScheme). -/
def isSchemeTailChar (c : Char) : Bool :=
  isSchemeHeadChar c
    ∨ (Char.toNat '0' ≤ c.toNat ∧ c.toNat ≤ Char.toNat '9')
    ∨ c = '+' ∨ c = '-' ∨ c = '.'

/-- A whole candidate scheme is valid (letter, then scheme characters). -/
def validScheme : Str → Bool
  | [] => false
  | c :: rest => isSchemeHeadChar c && rest.all isSchemeTailChar

/-- Modelled from Go net/url Parse getScheme: split the scheme off at the
first colon when everything before it is a valid scheme; a leading colon
is a parse error (none); otherwise no scheme and the input is untouched. -/
def getScheme (s : Str) : Option (Option Str × Str) :=
  match breakAtChar ':' s with
  | none => some (none, s)
  | some (before, after) =>
    if before = [] then none
    else if validScheme before then some (some before, after)
    else some (none, s)

/-- Modelled from Go net/url Parse, restricted to remotes without query,
fragment or percent-escapes: returns (Host, Path).  The authority is read
after a leading "//" up to the next slash, with any user-info before the
last '@' stripped; without "//" the host is empty. -/
def urlHostPath (s : Str) : Option (Str × Str) :=
  match getScheme s with
  | none => none
  | some (_, rest) =>
    if (str "//").isPrefixOf rest then
      let auth := (rest.drop 2).takeWhile (fun c => c ≠ '/')
      let path := (rest.drop 2).dropWhile (fun c => c ≠ '/')
      some (afterLastChar '@' auth, path)
    else some ([], [])

/-- URL-like branch of parseRemote (usecase), reached when the SCP-like
branch does not return: url-parse, require a non-empty host, strip one
trailing ".git", trim slashes, take the final two path segments. -/
def parseRemoteUrl (remote : Str) : Str × Str × Str :=
  match urlHostPath remote with
  | some (host, upath) =>
    if host = [] then ([], [], [])
    else
      let p := trimCharBoth '/' (trimSuffixStr (str ".git") upath)
      let parts := splitOnChar '/' p
      if 2 ≤ parts.length then
        (host, parts.getD (parts.length - 2) [], parts.getD (parts.length - 1) [])
      else ([], [], [])
  | none => ([], [], [])

/-- Embedded from parseRemote (usecase): SCP-like user@host:owner/repo
first, else URL-like scheme://host/…/owner/repo, trailing ".git"
stripped, empty triple when neither yields two path segments. -/
def parseRemote (remote : Str) : Str × Str × Str :=
  match breakAtChar ':' remote with
  | some (left, right) =>
    if left.contains '@' && !(containsSeq (str "://") remote) then
      let host := afterLastChar '@' left
      let parts := splitOnChar '/' (trimSuffixStr (str ".git") right)
      if 2 ≤ parts.length then
        (host, parts.getD (parts.length - 2) [], parts.getD (parts.length - 1) [])
      else parseRemoteUrl remote
    else parseRemoteUrl remote
  | none => parseRemoteUrl remote

/-- Number of path segments the SCP-like branch of parseRemote sees, when
that branch applies to the remote. -/
def scpSegs (remote : Str) : Option Nat :=
  match breakAtChar ':' remote with
  | some (left, right) =>
    if left.contains '@' && !(containsSeq (str "://") remote) then
      some (splitOnChar '/' (trimSuffixStr (str ".git") right)).length
    else none
  | none => none

/-- Number of path segments after the host the URL-like branch of
parseRemote sees, when url parsing yields a non-empty host. -/
def urlSegs (remote : Str) : Option Nat :=
  match urlHostPath remote with
  | some (host, upath) =>
    if host = [] then none
    else some (splitOnChar '/' (trimCharBoth '/' (trimSuffixStr (str ".git") upath))).length
  | none => none

theorem parseRemoteUrl_small (remote : Str) (h : (urlSegs remote).getD 0 < 2) :
    parseRemoteUrl remote = ([], [], []) := by
  unfold urlSegs at h
  unfold parseRemoteUrl
  cases hu : urlHostPath remote with
  | none => simp
  | some hp =>
    obtain ⟨host, upath⟩ := hp
    rw [hu] at h
    by_cases hh : host = []
    · simp [hh]
    · simp only [hh, if_false, if_neg]
      rw [if_neg]
      simp only [hh, if_false, Option.getD_some] at h
      omega

/-- C9: parseRemote yields the same (host, owner, repo) triple for the
SCP-like and the URL-like spelling of the same remote, with the trailing
".git" stripped, and for every remote in which neither form exposes two
path segments after the host the parse yields the empty triple. -/
theorem parseRemote_scp_url_agree :
    (parseRemote (str "git@host:o/r.git") = parseRemote (str "https://host/o/r.git")
      ∧ parseRemote (str "git@host:o/r.git") = (str "host", str "o", str "r"))
    ∧ ∀ remote : Str,
        (scpSegs remote).getD 0 < 2 →
        (urlSegs remote).getD 0 < 2 →
        parseRemote remote = ([], [], []) := by
  refine ⟨⟨by decide, by decide⟩, ?_⟩
  intro remote h1 h2
  unfold scpSegs at h1
  unfold parseRemote
  cases hb : breakAtChar ':' remote with
  | none => exact parseRemoteUrl_small remote h2
  | some lr =>
    obtain ⟨left, right⟩ := lr
    rw [hb] at h1
    by_cases hc : (left.contains '@' && !(containsSeq (str "://") remote)) = true
    · simp only [hc, if_true]
      rw [if_neg]
      · exact parseRemoteUrl_small remote h2
      · simp only [hc, if_true, Option.getD_some] at h1
        omega
    · simp only [hc, if_false]
      exact parseRemoteUrl_small remote h2

/-- Witness for C9 at a concrete remote with a single path segment. -/
theorem parseRemote_scp_url_agree_witness :
    (scpSegs (str "ssh://host/only")).getD 0 < 2
      ∧ (urlSegs (str "ssh://host/only")).getD 0 < 2
      ∧ parseRemote (str "ssh://host/only") = ([], [], []) :=
  ⟨by decide, by decide,
    parseRemote_scp_url_agree.2 (str "ssh://host/only") (by decide) (by decide)⟩

/-! Embedding of Go path.Match (stdlib path/match.go), used by shouldSkip
for glob patterns.  Bytes/runes are collapsed to characters, which agrees
with Go on well-formed UTF-8 input. -/

/-- Result of matchChunk: rest of the name on success, plain failure, or
a malformed pattern. -/
inductive ChunkRes where
  | ok (rest : Str)
  | fail
  | err
deriving DecidableEq

/-- Go path getEsc: one (possibly backslash-escaped) character of a
character class; the class must continue afterwards. -/
def getEsc : Str → Option (Char × Str)
  | [] => none
  | '-' :: _ => none
  | ']' :: _ => none
  | '\\' :: rest =>
    match rest with
    | [] => none
    | r :: rest2 => if rest2.isEmpty then none else some (r, rest2)
  | r :: rest => if rest.isEmpty then none else some (r, rest)

/-- Go path matchChunk range loop: consume character-ranges until the
closing bracket, recording whether r fell in any range; none on a
malformed class. -/
def matchRanges (r : Char) : Nat → Str → Bool → Nat → Option (Bool × Str)
  | 0, _, _, _ => none
  | fuel + 1, chunk, matched, nrange =>
    match chunk with
    | ']' :: rest =>
      if 0 < nrange then some (matched, rest)
      else none
    | _ =>
      match getEsc chunk with
      | none => none
      | some (lo, rest1) =>
        match rest1 with
        | '-' :: rest2 =>
          match getEsc rest2 with
          | none => none
          | some (hi, rest3) =>
            matchRanges r fuel rest3
              (matched || (lo.toNat ≤ r.toNat && r.toNat ≤ hi.toNat)) (nrange + 1)
        | _ =>
          matchRanges r fuel rest1
            (matched || (lo.toNat ≤ r.toNat && r.toNat ≤ lo.toNat)) (nrange + 1)

/-- Go path matchChunk: match a star-free chunk at the head of s, keeping
a failed flag so that syntax errors later in the chunk still surface. -/
def matchChunk : Nat → Str → Str → Bool → ChunkRes
  | 0, _, _, _ => .err
  | _ + 1, [], s, failed => if failed then .fail else .ok s
  | fuel + 1, c :: ct, s, failed0 =>
    let failed := failed0 || s.isEmpty
    if c = '[' then
      let r := if failed then Char.ofNat 0 else s.headD (Char.ofNat 0)
      let s2 := if failed then s else s.tail
      let negct : Bool × Str :=
        match ct with
        | '^' :: t => (true, t)
        | _ => (false, ct)
      match matchRanges r (negct.2.length + 1) negct.2 false 0 with
      | none => .err
      | some (matched, crest) =>
        matchChunk fuel crest s2 (failed || (matched == negct.1))
    else if c = '?' then
      if failed then matchChunk fuel ct s failed
      else if s.headD ' ' = '/' then matchChunk fuel ct s.tail true
      else matchChunk fuel ct s.tail failed
    else if c = '\\' then
      match ct with
      | [] => .err
      | c2 :: ct2 =>
        if failed then matchChunk fuel ct2 s failed
        else if s.headD ' ' = c2 then matchChunk fuel ct2 s.tail failed
        else matchChunk fuel ct2 s.tail true
    else
      if failed then matchChunk fuel ct s failed
      else if s.headD ' ' = c then matchChunk fuel ct s.tail failed
      else matchChunk fuel ct s.tail true

/-- Leading stars of a pattern (Go scanChunk star flag). -/
def hasStar : Str → Bool
  | '*' :: _ => true
  | _ => false

/-- Strip the leading stars (Go scanChunk first loop). -/
def dropStars : Str → Str
  | '*' :: rest => dropStars rest
  | p => p

/-- Go scanChunk scan loop: split off the chunk up to the next
unbracketed star, tracking the in-range flag. -/
def chunkSplit : Str → Bool → Str × Str
  | [], _ => ([], [])
  | '\\' :: c :: rest, inr =>
    let pr := chunkSplit rest inr
    ('\\' :: c :: pr.1, pr.2)
  | ['\\'], _ => (['\\'], [])
  | '[' :: rest, _ =>
    let pr := chunkSplit rest true
    ('[' :: pr.1, pr.2)
  | ']' :: rest, _ =>
    let pr := chunkSplit rest false
    (']' :: pr.1, pr.2)
  | '*' :: rest, inr =>
    if inr then
      let pr := chunkSplit rest inr
      ('*' :: pr.1, pr.2)
    else ([], '*' :: rest)
  | c :: rest, inr =>
    let pr := chunkSplit rest inr
    (c :: pr.1, pr.2)

/-- Outcome of the star-shift search in Go path Match. -/
inductive ShiftRes where
  | found (t : Str)
  | nofind
  | bad
deriving DecidableEq

/-- Go path Match inner loop after a star: retry the chunk at each later
byte of the name, never crossing a slash. -/
def starShiftLoop (chunk restPat : Str) : Str → ShiftRes
  | [] => .nofind
  | c :: nrest =>
    if c = '/' then .nofind
    else
      match matchChunk (chunk.length + 1) chunk nrest false with
      | .ok t =>
        if restPat.isEmpty && !t.isEmpty then starShiftLoop chunk restPat nrest
        else .found t
      | .err => .bad
      | .fail => starShiftLoop chunk restPat nrest

/-- Result of Go path Match, keeping the bad-pattern case distinct. -/
inductive MatchRes where
  | matched
  | notMatched
  | badPattern
deriving DecidableEq

/-- Go path Match main loop over star-separated chunks. -/
def goMatch : Nat → Str → Str → MatchRes
  | 0, _, _ => .badPattern
  | fuel + 1, pattern, name =>
    if pattern.isEmpty then
      if name.isEmpty then .matched else .notMatched
    else
      let star := hasStar pattern
      let p1 := dropStars pattern
      let cr := chunkSplit p1 false
      let chunk := cr.1
      let rest := cr.2
      if star && chunk.isEmpty then
        if name.contains '/' then .notMatched else .matched
      else
        match matchChunk (chunk.length + 1) chunk name false with
        | .ok t =>
          if t.isEmpty || !rest.isEmpty then goMatch fuel rest t
          else if star then
            match starShiftLoop chunk rest name with
            | .found u => goMatch fuel rest u
            | .nofind => .notMatched
            | .bad => .badPattern
          else .notMatched
        | .err => .badPattern
        | .fail =>
          if star then
            match starShiftLoop chunk rest name with
            | .found u => goMatch fuel rest u
            | .nofind => .notMatched
            | .bad => .badPattern
          else .notMatched

/-- Go path.Match as used by shouldSkip: the error is discarded, so a bad
pattern counts as no match. -/
def pathMatch (pattern name : Str) : Bool :=
  goMatch (pattern.length + 1) pattern name == .matched

/-- Go path.Base: final element of the path, after trailing slashes are
removed; "." for an empty path, "/" for all-slashes. -/
def pathBase (p : Str) : Str :=
  if p = [] then str "."
  else
    let p1 := (p.reverse.dropWhile (fun c => c = '/')).reverse
    let p2 := afterLastChar '/' p1
    if p2 = [] then str "/" else p2

/-- Go strings.ReplaceAll(s, single backslash, "/"). -/
def normSlash (s : Str) : Str := s.map (fun c => if c = '\\' then '/' else c)

/-- Go strings.ContainsAny(pattern, glob meta-characters). -/
def hasMeta (p : Str) : Bool := p.any (fun c => c = '*' || c = '?' || c = '[')

/-- Embedded from shouldSkip (usecase): loop body over the exclude
patterns, running on the already slash-normalized path. -/
def shouldSkipGo (normalizedPath : Str) : List Str → Bool × Str
  | [] => (false, [])
  | ex :: rest =>
    let pattern := normSlash ex
    if hasMeta pattern then
      if pattern.contains '/' then
        if pathMatch pattern normalizedPath then (true, ex)
        else shouldSkipGo normalizedPath rest
      else if pathMatch pattern (pathBase normalizedPath) then (true, ex)
      else shouldSkipGo normalizedPath rest
    else if normalizedPath = pattern || (pattern ++ ['/']).isPrefixOf normalizedPath then
      (true, ex)
    else shouldSkipGo normalizedPath rest

/-- Embedded from shouldSkip (usecase): returns whether the path is
skipped and the matching exclude pattern. -/
def shouldSkip (p : Str) (excludes : List Str) : Bool × Str :=
  shouldSkipGo (normSlash p) excludes

/-- Spec wording of one Phase-D pattern rule: meta with slash matches the
whole path, meta without slash the basename, a literal matches on
equality or as a directory whose slash-extended form leads the path. -/
def specPatternMatches (pattern p : Str) : Bool :=
  if hasMeta pattern then
    if pattern.contains '/' then pathMatch pattern p
    else pathMatch pattern (pathBase p)
  else p = pattern || (pattern ++ ['/']).isPrefixOf p

/-- The Phase-D keep loop of copyRepoSnapshot: candidates surviving the
exclude filter, in order. -/
def keepAfterExcludes (paths : List Str) (excludes : List Str) : List Str :=
  paths.filter (fun p => !(shouldSkip p excludes).1)

/-- C5 counterexample: for the path a backslash b and the literal pattern
a/b, the code skips the path (it normalizes backslashes to slashes first)
while the spec rules as stated match nothing. -/
theorem shouldSkip_claim_counterexample :
    ¬ (((shouldSkip (str "a\\b") [str "a/b"]).1 = true) ↔
        (∃ pat ∈ [str "a/b"], specPatternMatches pat (str "a\\b") = true)) := by
  decide

/-- C5 (amended): a path is skipped iff some exclude pattern matches it
under the spec's Phase-D rules applied after backslash-to-slash
normalization of both path and pattern; and scenario S7: of the
candidates logs/app.log, notes.tmp, keep.txt under the patterns *.tmp and
logs/*.log, only keep.txt survives the filter. -/
theorem shouldSkip_iff_spec :
    (∀ (p : Str) (excludes : List Str),
      (shouldSkip p excludes).1 = true ↔
        ∃ pat ∈ excludes, specPatternMatches (normSlash pat) (normSlash p) = true)
    ∧ keepAfterExcludes [str "logs/app.log", str "notes.tmp", str "keep.txt"]
        [str "*.tmp", str "logs/*.log"] = [str "keep.txt"] := by
  constructor
  · intro p excludes
    unfold shouldSkip
    induction excludes with
    | nil => simp [shouldSkipGo]
    | cons ex rest ih =>
      have hcons : (shouldSkipGo (normSlash p) (ex :: rest)).1 = true ↔
          (specPatternMatches (normSlash ex) (normSlash p) = true
            ∨ (shouldSkipGo (normSlash p) rest).1 = true) := by
        simp only [shouldSkipGo, specPatternMatches]
        by_cases hm : hasMeta (normSlash ex) = true
        · by_cases hs : '/' ∈ normSlash ex
          · by_cases hmt : pathMatch (normSlash ex) (normSlash p) = true
            · simp [hm, hs, hmt]
            · simp [hm, hs, hmt]
          · by_cases hmt : pathMatch (normSlash ex) (pathBase (normSlash p)) = true
            · simp [hm, hs, hmt]
            · simp [hm, hs, hmt]
        · by_cases he : normSlash p = normSlash ex
          · simp [hm, he]
          · by_cases hp : ((normSlash ex) ++ ['/']).isPrefixOf (normSlash p) = true
            · simp [hm, he, hp]
            · simp [hm, he, hp]
      rw [hcons, ih]
      simp [List.exists_mem_cons_iff]
  · decide

/-! Post-rewrite debounce check (hook support, cmd/app).  Time instants
are unix (seconds, nanoseconds) pairs; reading the stamp file is an
oracle. -/

/-- Go unicode.IsSpace restricted to Latin-1 (the stamp holds ASCII
decimal digits, so the higher Unicode spaces never arise here). -/
def isGoSpace (c : Char) : Bool :=
  c = ' ' || c = '\t' || c = '\n' || c = Char.ofNat 11 || c = Char.ofNat 12
    || c = '\r' || c.toNat = 0x85 || c.toNat = 0xA0

/-- Go strings.TrimSpace. -/
def trimSpace (s : Str) : Str :=
  ((s.dropWhile isGoSpace).reverse.dropWhile isGoSpace).reverse

/-- Decimal value of a nonempty all-digit run (Go strconv ParseUint core,
base 10). -/
def digitsValGo : Str → Nat → Option Nat
  | [], acc => some acc
  | c :: rest, acc =>
    if '0' ≤ c && c ≤ '9' then digitsValGo rest (acc * 10 + (c.toNat - Char.toNat '0'))
    else none

/-- Digit run must be nonempty. -/
def digitsVal : Str → Option Nat
  | [] => none
  | s => digitsValGo s 0

/-- Go strconv.ParseInt(s, 10, 64): optional sign, decimal digits, error
outside the int64 range. -/
def parseInt64 : Str → Option Int
  | [] => none
  | '+' :: rest =>
    (digitsVal rest).bind (fun n => if n ≤ 2 ^ 63 - 1 then some (n : Int) else none)
  | '-' :: rest =>
    (digitsVal rest).bind (fun n => if n ≤ 2 ^ 63 then some (-(n : Int)) else none)
  | s =>
    (digitsVal s).bind (fun n => if n ≤ 2 ^ 63 - 1 then some (n : Int) else none)

/-- Largest Go time.Duration (int64 nanoseconds). -/
def maxDuration : Int := 9223372036854775807

/-- Smallest Go time.Duration. -/
def minDuration : Int := -9223372036854775808

/-- Go time.Time.Sub of unix instants, in nanoseconds, saturating at the
Duration bounds as documented. -/
def subSaturated (aSec aNsec bSec bNsec : Int) : Int :=
  let d := (aSec - bSec) * 1000000000 + (aNsec - bNsec)
  if maxDuration < d then maxDuration
  else if d < minDuration then minDuration
  else d

/-- Result of a filesystem ReadFile call. -/
inductive ReadRes where
  | ok (data : Str)
  | errNotExist
  | errOther
deriving DecidableEq

/-- Oracle for the debounce check: content of the stamp file. -/
structure DebounceEnv where
  readFile : Str → ReadRes

/-- The 60 s debounce window in nanoseconds (cmd/app debounceTimeout). -/
def debounceTimeout : Int := 60 * 1000000000

/-- Embedded from isDebounceActive (cmd/app): read the stamp, trim it,
parse unix seconds, compare the age against the debounce window.  The
second component mirrors the Go error result. -/
def isDebounceActive (env : DebounceEnv) (stampPath : Str) (nowSec nowNsec : Int) :
    Bool × Bool :=
  if trimSpace stampPath = [] then (false, false)
  else
    match env.readFile stampPath with
    | .errNotExist => (false, false)
    | .errOther => (false, true)
    | .ok data =>
      let stampValue := trimSpace data
      if stampValue = [] then (false, false)
      else
        match parseInt64 stampValue with
        | none => (false, false)
        | some ts => (subSaturated nowSec nowNsec ts 0 < debounceTimeout, false)

theorem subSaturated_lt_timeout (aSec aNsec bSec : Int) :
    (subSaturated aSec aNsec bSec 0 < debounceTimeout) ↔
      ((aSec - bSec) * 1000000000 + aNsec < 60 * 1000000000) := by
  unfold subSaturated debounceTimeout maxDuration minDuration
  simp only []
  split_ifs <;> omega

/-- C7: the debounce check reports active iff the stamp file exists, its
trimmed content parses as a decimal int64, and now minus the stamp time
is under 60 seconds; a missing, empty, or unparseable stamp is never
active. -/
theorem isDebounceActive_iff (env : DebounceEnv) (stampPath : Str) (nowSec nowNsec : Int)
    (h : trimSpace stampPath ≠ []) :
    (isDebounceActive env stampPath nowSec nowNsec).1 = true ↔
      ∃ data ts, env.readFile stampPath = .ok data
        ∧ parseInt64 (trimSpace data) = some ts
        ∧ (nowSec - ts) * 1000000000 + nowNsec < 60 * 1000000000 := by
  unfold isDebounceActive
  rw [if_neg h]
  cases hr : env.readFile stampPath with
  | errNotExist => simp
  | errOther => simp
  | ok data =>
    by_cases he : trimSpace data = []
    · simp [he, parseInt64]
    · cases hp : parseInt64 (trimSpace data) with
      | none => simp [he, hp]
      | some ts => simp [he, hp, subSaturated_lt_timeout]

/-- Witness for C7: a stamp of 100 seconds checked at 130 seconds is
active. -/
theorem isDebounceActive_iff_witness :
    trimSpace (str "stamp") ≠ []
      ∧ (isDebounceActive ⟨fun _ => .ok (str " 100\n")⟩ (str "stamp") 130 0).1 = true :=
  ⟨by decide,
    (isDebounceActive_iff ⟨fun _ => .ok (str " 100\n")⟩ (str "stamp") 130 0
        (by decide)).mpr
      ⟨str " 100\n", 100, rfl, by decide, by decide⟩⟩

/-! Lock validation (internal/adapters/lock).  Instants are unix
nanoseconds; host name, process-start tokens and liveness are oracles. -/

/-- Clamp an int to the Go time.Duration range (time.Time.Sub). -/
def clampDur (d : Int) : Int :=
  if maxDuration < d then maxDuration
  else if d < minDuration then minDuration
  else d

/-- Lock record (usecase LockInfo) as read back from the info file. -/
structure LockInfo where
  pid : Int
  startTimeNs : Int
  hostname : Str
  processStartID : Str
  processStartTicks : Int

/-- OS oracle for lock validation: clock, local host name (none on
error), per-PID start-id and start-ticks (none when unobtainable), and
process liveness. -/
structure LockEnv where
  nowNs : Int
  localHostname : Option Str
  getStartID : Int → Option Str
  getStartTicks : Int → Option Int
  isRunning : Int → Bool

/-- The cross-host guard of validateLockFile: record has a hostname and
the local hostname resolves to a different one. -/
def hostMismatch (env : LockEnv) (info : LockInfo) : Bool :=
  !info.hostname.isEmpty
    && (match env.localHostname with
        | some h => h ≠ info.hostname
        | none => false)

/-- Tail of validateLockFile after the start-id step: start-ticks
comparison when the record has ticks and they are obtainable, else the
process-liveness fallback. -/
def ticksLivenessCheck (env : LockEnv) (info : LockInfo) : Bool :=
  match (if info.processStartTicks = 0 then none else env.getStartTicks info.pid) with
  | some ticks => ticks == info.processStartTicks
  | none => env.isRunning info.pid

/-- Embedded from validateLockFile (lock adapter): unreadable record is
invalid; then age, cross-host, start-id, start-ticks and liveness checks
in source order.  true = lock still held, false = stale. -/
def validateLockFile (env : LockEnv) (read : Option LockInfo) (maxAgeNs : Int) : Bool :=
  match read with
  | none => false
  | some info =>
    if maxAgeNs < clampDur (env.nowNs - info.startTimeNs) then false
    else if hostMismatch env info then true
    else
      match (if info.processStartID.isEmpty then none else env.getStartID info.pid) with
      | some id => id == info.processStartID
      | none => ticksLivenessCheck env info

/-- C2 counterexample: a fresh same-host record carrying a processStartId
whose local counterpart is unobtainable is validated as held (the code
falls back to the liveness check), while the claim says it must be
reported stale. -/
theorem validateLockFile_unobtainable_counterexample :
    (str "ticks:5").isEmpty = false
      ∧ (LockEnv.mk 0 (some (str "h")) (fun _ => none) (fun _ => none) (fun _ => true)).getStartID 7
          = none
      ∧ validateLockFile
          (LockEnv.mk 0 (some (str "h")) (fun _ => none) (fun _ => none) (fun _ => true))
          (some (LockInfo.mk 7 0 (str "h") (str "ticks:5") 0))
          86400000000000 = true := by
  refine ⟨by decide, rfl, ?_⟩
  decide

/-- C2 (amended): for an in-age, same-host record with a non-empty
processStartId, validation reports stale whenever the locally computed
start-id for the recorded PID is obtained and differs; when it cannot be
obtained, validation falls back to the start-ticks and liveness checks
instead of reporting the lock stale. -/
theorem validateLockFile_startID (env : LockEnv) (info : LockInfo) (maxAgeNs : Int)
    (hage : ¬ (maxAgeNs < clampDur (env.nowNs - info.startTimeNs)))
    (hhost : hostMismatch env info = false)
    (hid : info.processStartID.isEmpty = false) :
    (∀ id, env.getStartID info.pid = some id → (id == info.processStartID) = false →
        validateLockFile env (some info) maxAgeNs = false)
    ∧ (env.getStartID info.pid = none →
        validateLockFile env (some info) maxAgeNs = ticksLivenessCheck env info) := by
  constructor
  · intro id hgot hne
    simp [validateLockFile, hage, hhost, hid, hgot, hne]
  · intro hnone
    simp [validateLockFile, hage, hhost, hid, hnone]

/-- Witness for C2 at a concrete differing start-id. -/
theorem validateLockFile_startID_witness :
    validateLockFile
        (LockEnv.mk 0 (some (str "h")) (fun _ => some (str "ticks:9")) (fun _ => none)
          (fun _ => true))
        (some (LockInfo.mk 7 0 (str "h") (str "ticks:5") 0))
        86400000000000 = false :=
  (validateLockFile_startID
      (LockEnv.mk 0 (some (str "h")) (fun _ => some (str "ticks:9")) (fun _ => none)
        (fun _ => true))
      (LockInfo.mk 7 0 (str "h") (str "ticks:5") 0)
      86400000000000 (by decide) (by decide) (by decide)).1
    (str "ticks:9") rfl (by decide)

/-! Rotation (usecase rotateRepo and its three rules).  A snapshot
carries its directories, the modification time of its .done file and the
sizes of the regular files below it; the listSnapshots result is taken as
the already-sorted input list.  Filesystem mutations are recorded as an
action trace. -/

/-- Mutating filesystem calls, as recorded by the embedded functions. -/
inductive FsAct where
  | removeAll (path : Str)
  | writeFile (path : Str)
  | createDir (path : Str)
  | createDirExclusive (path : Str)
  | symlinkTo (path : Str)
  | copyTo (src dst : Str)
  | chmodOf (path : Str)
deriving DecidableEq

/-- One .done snapshot as seen by rotation. -/
structure Snap where
  dateDir : Str
  timeDir : Str
  mtimeNs : Option Int
  files : List Nat
deriving DecidableEq

/-- Rotation-relevant configuration fields (usecase Config). -/
structure RotCfg where
  keepDays : Int
  keepCount : Int
  maxTotalGBPerRepo : Int
  sizeMarginMB : Int
  noSize : Bool
deriving DecidableEq

/-- Oracle for rotation: number of entries a date dir still holds when
read after a removal (none = read error). -/
structure RotEnv where
  readDirCount : Str → Option Nat

/-- Embedded from removeSnapshot (usecase): remove the time dir, then
remove the date dir too when it reads back empty. -/
def removeSnapshot (env : RotEnv) (s : Snap) : List FsAct :=
  match env.readDirCount s.dateDir with
  | some 0 => [FsAct.removeAll s.timeDir, FsAct.removeAll s.dateDir]
  | _ => [FsAct.removeAll s.timeDir]

/-- Embedded from dirSizeKB (usecase): sum of regular-file sizes in
bytes, rounded up to whole KiB (walk errors only warn). -/
def dirSizeKB (s : Snap) : Nat := (s.files.sum + 1023) / 1024

/-- Loop body of applyKeepDays over the parallel snapshot/alive lists. -/
def applyKeepDaysGo (env : RotEnv) (dryRun : Bool) (nowNs limitNs : Int) :
    List Snap → List Bool → List Bool × List FsAct
  | [], al => (al, [])
  | _ :: _, [] => ([], [])
  | s :: rest, a :: arest =>
    let pr := applyKeepDaysGo env dryRun nowNs limitNs rest arest
    if !a then (a :: pr.1, pr.2)
    else
      match s.mtimeNs with
      | none => (a :: pr.1, pr.2)
      | some mt =>
        if limitNs < clampDur (nowNs - mt) then
          ((false : Bool) :: pr.1, (if dryRun then [] else removeSnapshot env s) ++ pr.2)
        else (a :: pr.1, pr.2)

/-- Embedded from applyKeepDays (usecase): age rule, disabled when
keepDays is not positive. -/
def applyKeepDays (env : RotEnv) (cfg : RotCfg) (dryRun : Bool) (nowNs : Int)
    (snaps : List Snap) (alive : List Bool) : List Bool × List FsAct :=
  if cfg.keepDays ≤ 0 then (alive, [])
  else applyKeepDaysGo env dryRun nowNs (cfg.keepDays * 86400000000000) snaps alive

/-- Number of living snapshots. -/
def countAlive (al : List Bool) : Nat := al.count true

/-- Loop body of applyKeepCount: kill the oldest living snapshots while
the removal budget lasts. -/
def applyKeepCountGo (env : RotEnv) (dryRun : Bool) :
    List Snap → List Bool → Nat → List Bool × List FsAct
  | _, al, 0 => (al, [])
  | [], al, _ => (al, [])
  | _ :: _, [], _ => ([], [])
  | s :: rest, a :: arest, tr + 1 =>
    if a then
      let pr := applyKeepCountGo env dryRun rest arest tr
      ((false : Bool) :: pr.1, (if dryRun then [] else removeSnapshot env s) ++ pr.2)
    else
      let pr := applyKeepCountGo env dryRun rest arest (tr + 1)
      (a :: pr.1, pr.2)

/-- Embedded from applyKeepCount (usecase): count rule, disabled when
keepCount is not positive or the living count fits. -/
def applyKeepCount (env : RotEnv) (cfg : RotCfg) (dryRun : Bool)
    (snaps : List Snap) (alive : List Bool) : List Bool × List FsAct :=
  if cfg.keepCount ≤ 0 then (alive, [])
  else if (countAlive alive : Int) ≤ cfg.keepCount then (alive, [])
  else applyKeepCountGo env dryRun snaps alive ((countAlive alive : Int) - cfg.keepCount).toNat

/-- Sizes as measured by applySizeLimit: the per-snapshot KiB for living
entries, zero for dead ones. -/
def sizedSnaps (snaps : List Snap) (alive : List Bool) : List (Snap × Int) :=
  List.zipWith (fun s a => (s, if a then (dirSizeKB s : Int) else 0)) snaps alive

/-- Total of a size list over the living entries. -/
def aliveTotal : List Bool → List Int → Int
  | [], _ => 0
  | _, [] => 0
  | a :: al, sz :: szs => (if a then sz else 0) + aliveTotal al szs

/-- Loop body of applySizeLimit: kill the oldest living snapshots while
the running total exceeds the limit. -/
def applySizeLimitGo (env : RotEnv) (dryRun : Bool) :
    List (Snap × Int) → List Bool → Int → Int → List Bool × List FsAct
  | [], al, _, _ => (al, [])
  | _ :: _, [], _, _ => ([], [])
  | p :: rest, a :: arest, total, limit =>
    if total ≤ limit then (a :: arest, [])
    else if a then
      let pr := applySizeLimitGo env dryRun rest arest (total - p.2) limit
      ((false : Bool) :: pr.1,
        (if dryRun then [] else removeSnapshot env p.1) ++ pr.2)
    else
      let pr := applySizeLimitGo env dryRun rest arest total limit
      (a :: pr.1, pr.2)

/-- Embedded from applySizeLimit (usecase): size rule, disabled when the
GB budget is not positive or noSize is set; the limit in KiB adds the
(possibly negative) margin. -/
def applySizeLimit (env : RotEnv) (cfg : RotCfg) (dryRun : Bool)
    (snaps : List Snap) (alive : List Bool) : List Bool × List FsAct :=
  if cfg.maxTotalGBPerRepo ≤ 0 || cfg.noSize then (alive, [])
  else
    let kbLimit := cfg.maxTotalGBPerRepo * 1024 * 1024 + cfg.sizeMarginMB * 1024
    let pairs := sizedSnaps snaps alive
    applySizeLimitGo env dryRun pairs alive (aliveTotal alive (pairs.map Prod.snd)) kbLimit

/-- Embedded from rotateRepo (usecase): list (taken as input, the listing
itself only reads), then age, count and size rules in order over a
parallel alive array that starts all-true. -/
def rotateRepo (env : RotEnv) (cfg : RotCfg) (dryRun : Bool) (nowNs : Int)
    (snaps : List Snap) : List Bool × List FsAct :=
  let alive := List.replicate snaps.length true
  let r1 := applyKeepDays env cfg dryRun nowNs snaps alive
  let r2 := applyKeepCount env cfg dryRun snaps r1.1
  let r3 := applySizeLimit env cfg dryRun snaps r2.1
  (r3.1, r1.2 ++ r2.2 ++ r3.2)

theorem applyKeepDaysGo_dry (env : RotEnv) (nowNs limitNs : Int) :
    ∀ (snaps : List Snap) (al : List Bool),
      (applyKeepDaysGo env true nowNs limitNs snaps al).2 = [] := by
  intro snaps
  induction snaps with
  | nil => intro al; rfl
  | cons s rest ih =>
    intro al
    cases al with
    | nil => rfl
    | cons a arest =>
      simp only [applyKeepDaysGo]
      cases hm : s.mtimeNs <;> by_cases ha : a <;> simp [ha, ih] <;> split_ifs <;> simp [ih]

theorem applyKeepCountGo_dry (env : RotEnv) :
    ∀ (snaps : List Snap) (al : List Bool) (tr : Nat),
      (applyKeepCountGo env true snaps al tr).2 = [] := by
  intro snaps
  induction snaps with
  | nil =>
    intro al tr
    cases tr <;> rfl
  | cons s rest ih =>
    intro al tr
    cases al with
    | nil => cases tr <;> rfl
    | cons a arest =>
      cases tr with
      | zero => rfl
      | succ tr =>
        simp only [applyKeepCountGo]
        by_cases ha : a <;> simp [ha, ih]

theorem applySizeLimitGo_dry (env : RotEnv) :
    ∀ (pairs : List (Snap × Int)) (al : List Bool) (total limit : Int),
      (applySizeLimitGo env true pairs al total limit).2 = [] := by
  intro pairs
  induction pairs with
  | nil => intro al total limit; rfl
  | cons p rest ih =>
    intro al total limit
    cases al with
    | nil => rfl
    | cons a arest =>
      simp only [applySizeLimitGo]
      split_ifs <;> simp [ih]

/-- C8: rotation in dry-run mode records no filesystem mutation at all —
no time directory or date directory removal — for every configuration,
snapshot list and environment, so repeating it leaves the disk
unchanged. -/
theorem rotateRepo_dryRun_no_actions (env : RotEnv) (cfg : RotCfg) (nowNs : Int)
    (snaps : List Snap) : (rotateRepo env cfg true nowNs snaps).2 = [] := by
  unfold rotateRepo applyKeepDays applyKeepCount applySizeLimit
  simp only []
  split_ifs <;>
    simp [applyKeepDaysGo_dry, applyKeepCountGo_dry, applySizeLimitGo_dry]

/-- C3 counterexample: with the age rule disabled, keepCount = 2 and two
1 TiB snapshots against a 1 GB size budget, full rotation leaves zero
survivors, not min(2, 2) = 2 — the size rule keeps removing after the
count rule. -/
theorem rotateRepo_keepCount_claim_counterexample :
    (applyKeepDays (RotEnv.mk fun _ => some 1) (RotCfg.mk 0 2 1 0 false) false 0
        [Snap.mk (str "d") (str "t1") (some 0) [1099511627776],
          Snap.mk (str "d") (str "t2") (some 0) [1099511627776]]
        [true, true] = ([true, true], []))
      ∧ countAlive (rotateRepo (RotEnv.mk fun _ => some 1) (RotCfg.mk 0 2 1 0 false) false 0
          [Snap.mk (str "d") (str "t1") (some 0) [1099511627776],
            Snap.mk (str "d") (str "t2") (some 0) [1099511627776]]).1 = 0
      ∧ ¬ (countAlive (rotateRepo (RotEnv.mk fun _ => some 1) (RotCfg.mk 0 2 1 0 false) false 0
          [Snap.mk (str "d") (str "t1") (some 0) [1099511627776],
            Snap.mk (str "d") (str "t2") (some 0) [1099511627776]]).1
        = min 2 ((2 : Int)).toNat) := by
  refine ⟨by decide, by decide, by decide⟩

theorem applyKeepCountGo_all_true (env : RotEnv) (dryRun : Bool) :
    ∀ (snaps : List Snap) (tr : Nat), tr ≤ snaps.length →
      (applyKeepCountGo env dryRun snaps (List.replicate snaps.length true) tr).1
        = List.replicate tr false ++ List.replicate (snaps.length - tr) true := by
  intro snaps
  induction snaps with
  | nil =>
    intro tr htr
    have h0 : tr = 0 := by simpa using htr
    subst h0
    rfl
  | cons s rest ih =>
    intro tr htr
    cases tr with
    | zero => simp [applyKeepCountGo, List.replicate_succ]
    | succ tr =>
      have h1 : tr ≤ rest.length := by simpa using htr
      simp only [List.length_cons, List.replicate_succ, applyKeepCountGo, if_true]
      simp only [ih tr h1]
      have e : rest.length + 1 - (tr + 1) = rest.length - tr := by omega
      simp [List.replicate_succ, e]

theorem countAlive_replicate_shape (a b : Nat) :
    countAlive (List.replicate a false ++ List.replicate b true) = b := by
  unfold countAlive
  simp [List.count_replicate]

/-- C3 (amended): if the age rule removed nothing and the size rule also
removed nothing, then rotation with keepCount = k > 0 leaves exactly
min(pre-count, k) living snapshots, and the removed ones are exactly the
oldest pre-count − k entries at the front of the sorted list. -/
theorem rotateRepo_keepCount_min (env : RotEnv) (cfg : RotCfg) (dryRun : Bool) (nowNs : Int)
    (snaps : List Snap)
    (hk : 0 < cfg.keepCount)
    (hage : (applyKeepDays env cfg dryRun nowNs snaps (List.replicate snaps.length true)).1
        = List.replicate snaps.length true)
    (hsize : (applySizeLimit env cfg dryRun snaps
          (applyKeepCount env cfg dryRun snaps (List.replicate snaps.length true)).1).1
        = (applyKeepCount env cfg dryRun snaps (List.replicate snaps.length true)).1) :
    (rotateRepo env cfg dryRun nowNs snaps).1
        = List.replicate (snaps.length - cfg.keepCount.toNat) false
            ++ List.replicate (min snaps.length cfg.keepCount.toNat) true
      ∧ countAlive (rotateRepo env cfg dryRun nowNs snaps).1
        = min snaps.length cfg.keepCount.toNat := by
  have hmain : (rotateRepo env cfg dryRun nowNs snaps).1
      = List.replicate (snaps.length - cfg.keepCount.toNat) false
          ++ List.replicate (min snaps.length cfg.keepCount.toNat) true := by
    unfold rotateRepo
    simp only [hage, hsize]
    unfold applyKeepCount
    rw [if_neg (by omega)]
    have hca : countAlive (List.replicate snaps.length true) = snaps.length := by
      unfold countAlive
      simp [List.count_replicate]
    by_cases hle : (countAlive (List.replicate snaps.length true) : Int) ≤ cfg.keepCount
    · rw [if_pos hle]
      rw [hca] at hle
      have h1 : snaps.length - cfg.keepCount.toNat = 0 := by omega
      have h2 : min snaps.length cfg.keepCount.toNat = snaps.length := by omega
      simp [h1, h2]
    · rw [if_neg hle]
      rw [hca] at hle ⊢
      have htr : ((snaps.length : Int) - cfg.keepCount).toNat ≤ snaps.length := by omega
      rw [applyKeepCountGo_all_true env dryRun snaps _ htr]
      have e1 : ((snaps.length : Int) - cfg.keepCount).toNat
          = snaps.length - cfg.keepCount.toNat := by omega
      rw [e1]
      have e2 : snaps.length - (snaps.length - cfg.keepCount.toNat)
          = min snaps.length cfg.keepCount.toNat := by omega
      rw [e2]
  exact ⟨hmain, by rw [hmain, countAlive_replicate_shape]⟩

/-- Witness for C3 with three snapshots, keepCount 2 and the size rule
disabled. -/
theorem rotateRepo_keepCount_min_witness :
    countAlive (rotateRepo (RotEnv.mk fun _ => some 1) (RotCfg.mk 0 2 5 0 true) false 0
        [Snap.mk (str "d") (str "t1") (some 0) [], Snap.mk (str "d") (str "t2") (some 0) [],
          Snap.mk (str "d") (str "t3") (some 0) []]).1
      = min 3 ((2 : Int)).toNat :=
  (rotateRepo_keepCount_min (RotEnv.mk fun _ => some 1) (RotCfg.mk 0 2 5 0 true) false 0
      [Snap.mk (str "d") (str "t1") (some 0) [], Snap.mk (str "d") (str "t2") (some 0) [],
        Snap.mk (str "d") (str "t3") (some 0) []]
      (by decide) (by decide) (by decide)).2

/-- Turn the first d living (true) entries of an alive list to false:
the shape left behind by killing the d oldest living snapshots. -/
def killFirstLiving : Nat → List Bool → List Bool
  | _, [] => []
  | 0, al => al
  | d + 1, a :: rest =>
    if a then (false : Bool) :: killFirstLiving d rest
    else a :: killFirstLiving (d + 1) rest

theorem killFirstLiving_false_cons (k : Nat) (l : List Bool) :
    killFirstLiving k ((false : Bool) :: l) = (false : Bool) :: killFirstLiving k l := by
  cases k with
  | zero =>
    cases l <;> rfl
  | succ k => rfl

theorem killFirstLiving_zero (l : List Bool) : killFirstLiving 0 l = l := by
  cases l <;> rfl

theorem applySizeLimitGo_spec (env : RotEnv) (dryRun : Bool) :
    ∀ (pairs : List (Snap × Int)) (alive : List Bool) (limit total : Int),
      pairs.length = alive.length →
      total = aliveTotal alive (pairs.map Prod.snd) →
      (∀ sz ∈ pairs.map Prod.snd, 0 ≤ sz) →
      0 ≤ limit →
      ∃ d, (applySizeLimitGo env dryRun pairs alive total limit).1 = killFirstLiving d alive
        ∧ aliveTotal (killFirstLiving d alive) (pairs.map Prod.snd) ≤ limit
        ∧ (d = 0 ∨ limit < aliveTotal (killFirstLiving (d - 1) alive) (pairs.map Prod.snd)) := by
  intro pairs
  induction pairs with
  | nil =>
    intro alive limit total hlen htot hpos hlim
    have ha : alive = [] := by
      cases alive with
      | nil => rfl
      | cons a arest => simp at hlen
    subst ha
    refine ⟨0, rfl, ?_, Or.inl rfl⟩
    simpa [aliveTotal] using hlim
  | cons p rest ih =>
    intro alive limit total hlen htot hpos hlim
    cases alive with
    | nil => simp at hlen
    | cons a arest =>
      have hlen2 : rest.length = arest.length := by simpa using hlen
      have hpos2 : ∀ sz ∈ rest.map Prod.snd, 0 ≤ sz := by
        intro sz hsz
        exact hpos sz (by simp [hsz])
      have hposp : 0 ≤ p.2 := hpos p.2 (by simp)
      by_cases hstop : total ≤ limit
      · refine ⟨0, ?_, ?_, Or.inl rfl⟩
        · simp [applySizeLimitGo, hstop, killFirstLiving_zero]
        · rw [killFirstLiving_zero, ← htot]
          exact hstop
      · by_cases ha : a = true
        · subst ha
          have htot2 : total - p.2 = aliveTotal arest (rest.map Prod.snd) := by
            simp [aliveTotal] at htot
            omega
          obtain ⟨d, h1, h2, h3⟩ :=
            ih arest limit (total - p.2) hlen2 htot2 hpos2 hlim
          refine ⟨d + 1, ?_, ?_, Or.inr ?_⟩
          · simp only [applySizeLimitGo, if_neg hstop, if_true]
            simp only [killFirstLiving, if_true]
            rw [h1]
          · simp only [killFirstLiving, if_true, List.map_cons, aliveTotal]
            simpa using h2
          · cases d with
            | zero =>
              rw [killFirstLiving_zero]
              simp only [List.map_cons, aliveTotal, if_true]
              rw [← htot2] at *
              simp only [aliveTotal] at htot
              omega
            | succ d2 =>
              simp only [Nat.add_sub_cancel, killFirstLiving, if_true, List.map_cons,
                aliveTotal]
              rcases h3 with h3 | h3
              · exact absurd h3 (by omega)
              · have e : d2 + 1 - 1 = d2 := by omega
                rw [e] at h3
                simpa using h3
        · have ha2 : a = false := by
            cases a
            · rfl
            · exact absurd rfl ha
          subst ha2
          have htot2 : total = aliveTotal arest (rest.map Prod.snd) := by
            simpa [aliveTotal] using htot
          obtain ⟨d, h1, h2, h3⟩ := ih arest limit total hlen2 htot2 hpos2 hlim
          refine ⟨d, ?_, ?_, ?_⟩
          · simp only [applySizeLimitGo, if_neg hstop]
            simp only [Bool.false_eq_true, if_false, killFirstLiving_false_cons]
            rw [h1]
          · rw [killFirstLiving_false_cons]
            simpa [aliveTotal] using h2
          · rcases h3 with h3 | h3
            · exact Or.inl h3
            · refine Or.inr ?_
              rw [killFirstLiving_false_cons]
              simpa [aliveTotal] using h3

theorem sizedSnaps_length (snaps : List Snap) (alive : List Bool) :
    (sizedSnaps snaps alive).length = min snaps.length alive.length := by
  unfold sizedSnaps
  simp [List.length_zipWith]

theorem sizedSnaps_pos : ∀ (snaps : List Snap) (alive : List Bool) (sz : Int),
    sz ∈ (sizedSnaps snaps alive).map Prod.snd → 0 ≤ sz := by
  intro snaps
  induction snaps with
  | nil =>
    intro alive sz h
    simp [sizedSnaps] at h
  | cons s rest ih =>
    intro alive sz h
    cases alive with
    | nil => simp [sizedSnaps] at h
    | cons a arest =>
      simp only [sizedSnaps, List.zipWith_cons_cons, List.map_cons, List.mem_cons] at h
      rcases h with h | h
      · subst h
        split_ifs
        · exact Int.natCast_nonneg _
        · exact le_refl 0
      · exact ih arest sz (by simpa [sizedSnaps] using h)

/-- C6: with maxTotalGB > 0 and noSize false, each snapshot is measured
as its regular-file byte total rounded up to a whole KiB, and the size
rule removes the oldest living snapshots one at a time, minimally, until
the surviving total is at most maxTotalGB·1048576 + sizeMarginMB·1024 KiB
(sizeMarginMB may be negative). -/
theorem applySizeLimit_spec (env : RotEnv) (cfg : RotCfg) (dryRun : Bool)
    (snaps : List Snap) (alive : List Bool)
    (hgb : 0 < cfg.maxTotalGBPerRepo) (hns : cfg.noSize = false)
    (hlen : snaps.length = alive.length)
    (hlim : 0 ≤ cfg.maxTotalGBPerRepo * 1048576 + cfg.sizeMarginMB * 1024) :
    (∀ s ∈ snaps, s.files.sum ≤ 1024 * dirSizeKB s ∧ 1024 * dirSizeKB s < s.files.sum + 1024)
    ∧ ∃ d,
        (applySizeLimit env cfg dryRun snaps alive).1 = killFirstLiving d alive
        ∧ aliveTotal (killFirstLiving d alive) ((sizedSnaps snaps alive).map Prod.snd)
            ≤ cfg.maxTotalGBPerRepo * 1048576 + cfg.sizeMarginMB * 1024
        ∧ (d = 0
            ∨ cfg.maxTotalGBPerRepo * 1048576 + cfg.sizeMarginMB * 1024
              < aliveTotal (killFirstLiving (d - 1) alive)
                  ((sizedSnaps snaps alive).map Prod.snd)) := by
  have heq : cfg.maxTotalGBPerRepo * 1024 * 1024 + cfg.sizeMarginMB * 1024
      = cfg.maxTotalGBPerRepo * 1048576 + cfg.sizeMarginMB * 1024 := by ring
  constructor
  · intro s hs
    unfold dirSizeKB
    omega
  · have hplen : (sizedSnaps snaps alive).length = alive.length := by
      rw [sizedSnaps_length, hlen]
      omega
    obtain ⟨d, h1, h2, h3⟩ :=
      applySizeLimitGo_spec env dryRun (sizedSnaps snaps alive) alive
        (cfg.maxTotalGBPerRepo * 1024 * 1024 + cfg.sizeMarginMB * 1024)
        (aliveTotal alive ((sizedSnaps snaps alive).map Prod.snd))
        hplen rfl (sizedSnaps_pos snaps alive) (by omega)
    refine ⟨d, ?_, ?_, ?_⟩
    · rw [← h1]
      unfold applySizeLimit
      rw [if_neg]
      simp only [Bool.or_eq_true, decide_eq_true_eq, not_or, Bool.not_eq_true]
      exact ⟨by omega, hns⟩
    · rw [← heq]
      exact h2
    · rw [← heq]
      exact h3

/-- Witness for C6: one 2 KiB snapshot under a 1 GB budget with a
negative margin survives the size rule. -/
theorem applySizeLimit_spec_witness :
    (∀ s ∈ [Snap.mk (str "d") (str "t") (some 0) [2048]],
      s.files.sum ≤ 1024 * dirSizeKB s ∧ 1024 * dirSizeKB s < s.files.sum + 1024)
    ∧ ∃ d,
        (applySizeLimit (RotEnv.mk fun _ => some 1) (RotCfg.mk 0 0 1 (-1) false) false
            [Snap.mk (str "d") (str "t") (some 0) [2048]] [true]).1
          = killFirstLiving d [true]
        ∧ aliveTotal (killFirstLiving d [true])
            ((sizedSnaps [Snap.mk (str "d") (str "t") (some 0) [2048]] [true]).map Prod.snd)
            ≤ (1 : Int) * 1048576 + (-1) * 1024
        ∧ (d = 0
            ∨ (1 : Int) * 1048576 + (-1) * 1024
              < aliveTotal (killFirstLiving (d - 1) [true])
                  ((sizedSnaps [Snap.mk (str "d") (str "t") (some 0) [2048]]
                    [true]).map Prod.snd)) :=
  applySizeLimit_spec (RotEnv.mk fun _ => some 1) (RotCfg.mk 0 0 1 (-1) false) false
    [Snap.mk (str "d") (str "t") (some 0) [2048]] [true]
    (by decide) rfl (by decide) (by decide)

/-! Snapshot reservation (usecase createUniqueSnapshotDir).  Exclusive
directory creation is an oracle per candidate index; paths are joined
with a plain separator. -/

/-- Outcome of an exclusive mkdir. -/
inductive MkdirRes where
  | ok
  | already
  | err
deriving DecidableEq

/-- Oracle for reservation: whether ensuring the date dir fails, and the
outcomes of the two exclusive creates per candidate index. -/
structure ReserveEnv where
  mkDateDirFails : Bool
  mkCand : Nat → MkdirRes
  mkRes : Nat → MkdirRes

/-- Filesystem Join for two segments (model: plain separator, no
cleaning). -/
def joinPath (a b : Str) : Str := a ++ '/' :: b

/-- Left-pad a digit string with zeros to the given width (fmt %0wd for
nonnegative arguments). -/
def padLeft (w : Nat) (s : Str) : Str := List.replicate (w - s.length) '0' ++ s

/-- Embedded from formatTimeDir (usecase): HHMMSS-NNNNNNNNN. -/
def formatTimeDir (h m s ns : Nat) : Str :=
  padLeft 2 (str (toString h)) ++ padLeft 2 (str (toString m))
    ++ padLeft 2 (str (toString s)) ++ '-' :: padLeft 9 (str (toString ns))

/-- Candidate time dir for attempt i: the base name for i = 0, else
base-ii with a two-digit suffix. -/
def candidateName (base : Str) (i : Nat) : Str :=
  if i = 0 then base else base ++ '-' :: padLeft 2 (str (toString i))

/-- Loop body of createUniqueSnapshotDir: try candidate i, continue on
already-exists (removing the candidate when its .reserve exists), fail on
hard errors, stop when the fuel (100 − i) is gone. -/
def createUniqueLoop (env : ReserveEnv) (repoDir dateDir base : Str) :
    Nat → Nat → Option Str × List FsAct
  | _, 0 => (none, [])
  | i, fuel + 1 =>
    let targetPath := joinPath (joinPath repoDir dateDir) (candidateName base i)
    match env.mkCand i with
    | .already =>
      let pr := createUniqueLoop env repoDir dateDir base (i + 1) fuel
      (pr.1, FsAct.createDirExclusive targetPath :: pr.2)
    | .err => (none, [FsAct.createDirExclusive targetPath])
    | .ok =>
      let reservePath := joinPath targetPath (str ".reserve")
      match env.mkRes i with
      | .ok =>
        (some targetPath,
          [FsAct.createDirExclusive targetPath, FsAct.createDirExclusive reservePath])
      | .already =>
        let pr := createUniqueLoop env repoDir dateDir base (i + 1) fuel
        (pr.1,
          FsAct.createDirExclusive targetPath :: FsAct.createDirExclusive reservePath
            :: FsAct.removeAll targetPath :: pr.2)
      | .err =>
        (none,
          [FsAct.createDirExclusive targetPath, FsAct.createDirExclusive reservePath,
            FsAct.removeAll targetPath])

/-- Embedded from createUniqueSnapshotDir (usecase): ensure the date dir,
then up to 100 candidate attempts starting at the bare time dir name. -/
def createUniqueSnapshotDir (env : ReserveEnv) (repoDir dateDir : Str) (h m s ns : Nat) :
    Option Str × List FsAct :=
  if env.mkDateDirFails then (none, [])
  else
    let baseTimeDir := formatTimeDir h m s ns
    let pr := createUniqueLoop env repoDir dateDir baseTimeDir 0 100
    (pr.1, FsAct.createDir (joinPath repoDir dateDir) :: pr.2)

theorem createUniqueLoop_found (env : ReserveEnv) (rd dd base : Str) :
    ∀ (fuel i j : Nat), i + fuel = 100 → i ≤ j → j < 100 →
      env.mkCand j = MkdirRes.ok → env.mkRes j = MkdirRes.ok →
      (∀ k, i ≤ k → k < j → ¬(env.mkCand k = MkdirRes.ok ∧ env.mkRes k = MkdirRes.ok)) →
      (∀ k, i ≤ k → k < j → env.mkCand k ≠ MkdirRes.err) →
      (∀ k, i ≤ k → k < j → env.mkCand k = MkdirRes.ok → env.mkRes k ≠ MkdirRes.err) →
      (createUniqueLoop env rd dd base i fuel).1
          = some (joinPath (joinPath rd dd) (candidateName base j))
        ∧ ∀ k, i ≤ k → k < j → env.mkCand k = MkdirRes.ok →
            FsAct.removeAll (joinPath (joinPath rd dd) (candidateName base k))
              ∈ (createUniqueLoop env rd dd base i fuel).2 := by
  intro fuel
  induction fuel with
  | zero =>
    intro i j hif hij hj _ _ _ _ _
    omega
  | succ fuel ih =>
    intro i j hif hij hj hcj hrj hprev herr1 herr2
    by_cases hieq : i = j
    · subst hieq
      constructor
      · simp [createUniqueLoop, hcj, hrj]
      · intro k hk1 hk2 _
        omega
    · have hilt : i < j := by omega
      have hprev2 : ∀ k, i + 1 ≤ k → k < j →
          ¬(env.mkCand k = MkdirRes.ok ∧ env.mkRes k = MkdirRes.ok) := by
        intro k h1 h2
        exact hprev k (by omega) h2
      have herr12 : ∀ k, i + 1 ≤ k → k < j → env.mkCand k ≠ MkdirRes.err := by
        intro k h1 h2
        exact herr1 k (by omega) h2
      have herr22 : ∀ k, i + 1 ≤ k → k < j →
          env.mkCand k = MkdirRes.ok → env.mkRes k ≠ MkdirRes.err := by
        intro k h1 h2
        exact herr2 k (by omega) h2
      obtain ⟨ihr, ihm⟩ := ih (i + 1) j (by omega) (by omega) hj hcj hrj hprev2 herr12 herr22
      cases hci : env.mkCand i with
      | err => exact absurd hci (herr1 i (by omega) hilt)
      | already =>
        constructor
        · simpa [createUniqueLoop, hci] using ihr
        · intro k hk1 hk2 hkc
          have hkne : k ≠ i := by
            intro he
            rw [he, hci] at hkc
            cases hkc
          simp only [createUniqueLoop, hci, List.mem_cons]
          exact Or.inr (ihm k (by omega) hk2 hkc)
      | ok =>
        cases hri : env.mkRes i with
        | ok => exact absurd ⟨hci, hri⟩ (hprev i (by omega) hilt)
        | err => exact absurd hri (herr2 i (by omega) hilt hci)
        | already =>
          constructor
          · simpa [createUniqueLoop, hci, hri] using ihr
          · intro k hk1 hk2 hkc
            simp only [createUniqueLoop, hci, hri, List.mem_cons]
            by_cases hke : k = i
            · subst hke
              right
              right
              exact Or.inl rfl
            · right
              right
              right
              exact ihm k (by omega) hk2 hkc

theorem createUniqueLoop_none (env : ReserveEnv) (rd dd base : Str) :
    ∀ (fuel i : Nat), i + fuel = 100 →
      (∀ j, i ≤ j → j < 100 → ¬(env.mkCand j = MkdirRes.ok ∧ env.mkRes j = MkdirRes.ok)) →
      (∀ j, i ≤ j → j < 100 → env.mkCand j ≠ MkdirRes.err) →
      (∀ j, i ≤ j → j < 100 → env.mkCand j = MkdirRes.ok → env.mkRes j ≠ MkdirRes.err) →
      (createUniqueLoop env rd dd base i fuel).1 = none := by
  intro fuel
  induction fuel with
  | zero =>
    intro i _ _ _ _
    rfl
  | succ fuel ih =>
    intro i hif hnone herr1 herr2
    have hi : i < 100 := by omega
    have hrec := ih (i + 1) (by omega)
      (fun j h1 h2 => hnone j (by omega) h2)
      (fun j h1 h2 => herr1 j (by omega) h2)
      (fun j h1 h2 => herr2 j (by omega) h2)
    cases hci : env.mkCand i with
    | err => exact absurd hci (herr1 i (by omega) hi)
    | already => simpa [createUniqueLoop, hci] using hrec
    | ok =>
      cases hri : env.mkRes i with
      | ok => exact absurd ⟨hci, hri⟩ (hnone i (by omega) hi)
      | err => exact absurd hri (herr2 i (by omega) hi hci)
      | already => simpa [createUniqueLoop, hci, hri] using hrec

/-- C4: reservation tries the base HHMMSS-NNNNNNNNN candidate and then
the -01..-99 suffixes in order; assuming no hard create errors, it
returns the first candidate whose directory and .reserve both create
exclusively, removing each earlier candidate whose .reserve already
existed, and yields no directory when all 100 attempts collide. -/
theorem createUniqueSnapshotDir_spec (env : ReserveEnv) (repoDir dateDir : Str)
    (h m s ns : Nat)
    (hdd : env.mkDateDirFails = false)
    (herr1 : ∀ i, i < 100 → env.mkCand i ≠ MkdirRes.err)
    (herr2 : ∀ i, i < 100 → env.mkCand i = MkdirRes.ok → env.mkRes i ≠ MkdirRes.err) :
    (∀ j, j < 100 → env.mkCand j = MkdirRes.ok → env.mkRes j = MkdirRes.ok →
      (∀ k, k < j → ¬(env.mkCand k = MkdirRes.ok ∧ env.mkRes k = MkdirRes.ok)) →
      (createUniqueSnapshotDir env repoDir dateDir h m s ns).1
          = some (joinPath (joinPath repoDir dateDir)
              (candidateName (formatTimeDir h m s ns) j))
        ∧ ∀ k, k < j → env.mkCand k = MkdirRes.ok →
            FsAct.removeAll (joinPath (joinPath repoDir dateDir)
              (candidateName (formatTimeDir h m s ns) k))
              ∈ (createUniqueSnapshotDir env repoDir dateDir h m s ns).2)
    ∧ ((∀ j, j < 100 → ¬(env.mkCand j = MkdirRes.ok ∧ env.mkRes j = MkdirRes.ok)) →
        (createUniqueSnapshotDir env repoDir dateDir h m s ns).1 = none) := by
  constructor
  · intro j hj hcj hrj hprev
    obtain ⟨hr, hm2⟩ := createUniqueLoop_found env repoDir dateDir (formatTimeDir h m s ns)
      100 0 j rfl (by omega) hj hcj hrj
      (fun k _ h2 => hprev k h2)
      (fun k _ h2 => herr1 k (by omega))
      (fun k _ h2 => herr2 k (by omega))
    constructor
    · simpa [createUniqueSnapshotDir, hdd] using hr
    · intro k hk hck
      have := hm2 k (by omega) hk hck
      simp only [createUniqueSnapshotDir, hdd, Bool.false_eq_true, if_false, List.mem_cons]
      exact Or.inr this
  · intro hnone
    have := createUniqueLoop_none env repoDir dateDir (formatTimeDir h m s ns) 100 0 rfl
      (fun j _ h2 => hnone j h2)
      (fun j _ h2 => herr1 j h2)
      (fun j _ h2 => herr2 j h2)
    simpa [createUniqueSnapshotDir, hdd] using this

/-- Witness for C4: candidate 0 collides, candidate 1 loses the .reserve
race (and is removed), candidate 2 wins. -/
theorem createUniqueSnapshotDir_spec_witness :
    (createUniqueSnapshotDir
        (ReserveEnv.mk false (fun i => if i = 0 then MkdirRes.already else MkdirRes.ok)
          (fun i => if i = 1 then MkdirRes.already else MkdirRes.ok))
        (str "repo") (str "2024-01-02") 1 2 3 4).1
      = some (joinPath (joinPath (str "repo") (str "2024-01-02"))
          (candidateName (formatTimeDir 1 2 3 4) 2))
    ∧ FsAct.removeAll (joinPath (joinPath (str "repo") (str "2024-01-02"))
          (candidateName (formatTimeDir 1 2 3 4) 1))
        ∈ (createUniqueSnapshotDir
            (ReserveEnv.mk false (fun i => if i = 0 then MkdirRes.already else MkdirRes.ok)
              (fun i => if i = 1 then MkdirRes.already else MkdirRes.ok))
            (str "repo") (str "2024-01-02") 1 2 3 4).2 := by
  obtain ⟨h1, h2⟩ := (createUniqueSnapshotDir_spec
      (ReserveEnv.mk false (fun i => if i = 0 then MkdirRes.already else MkdirRes.ok)
        (fun i => if i = 1 then MkdirRes.already else MkdirRes.ok))
      (str "repo") (str "2024-01-02") 1 2 3 4 rfl (by decide) (by decide)).1
    2 (by decide) (by decide) (by decide) (by decide)
  exact ⟨h1, h2 1 (by decide) (by decide)⟩

/-! Hook subcommands (cmd/app).  Preflight, rebase detection, debounce
and the Backup call are oracles; only the exit code is modelled. -/

/-- Error identity returned by usecase.Backup, as the hooks distinguish
it (errors.Is). -/
inductive BackupErr where
  | critical
  | usage
  | lockBusy
  | interrupted
  | canceled
deriving DecidableEq

/-- Oracle for one hook invocation. -/
structure HookEnv where
  preflightOk : Bool
  ctxErr : Bool
  reflogRebase : Bool
  rebaseInProgress : Option Bool
  debounceActive : Bool
  dryRun : Bool
  backupResult : Option BackupErr

/-- Exit code 0 (cmd/app exitcodes.go). -/
def exitSuccess : Nat := 0

/-- Embedded from runBackupWithNotify (cmd/app): run Backup and notify;
every branch, including every Backup failure, exits 0. -/
def runBackupWithNotify (env : HookEnv) : Nat :=
  if env.ctxErr then exitSuccess
  else if env.dryRun then exitSuccess
  else
    match env.backupResult with
    | none => exitSuccess
    | some BackupErr.lockBusy => exitSuccess
    | some BackupErr.interrupted => exitSuccess
    | some BackupErr.canceled => exitSuccess
    | some _ => exitSuccess

/-- Embedded from runHookPostCommit (cmd/app): preflight, reflog and
rebase-state guards, then the backup. -/
def runHookPostCommit (env : HookEnv) : Nat :=
  if !env.preflightOk then exitSuccess
  else if env.ctxErr then exitSuccess
  else if env.reflogRebase then exitSuccess
  else
    match env.rebaseInProgress with
    | none => exitSuccess
    | some true => exitSuccess
    | some false => runBackupWithNotify env

/-- Embedded from runHookPostMerge (cmd/app). -/
def runHookPostMerge (env : HookEnv) : Nat :=
  if !env.preflightOk then exitSuccess
  else if env.ctxErr then exitSuccess
  else
    match env.rebaseInProgress with
    | none => exitSuccess
    | some true => exitSuccess
    | some false => runBackupWithNotify env

/-- ASCII lower-casing (Go strings.ToLower on the hook argument). -/
def toLowerAscii (c : Char) : Char :=
  if Char.toNat 'A' ≤ c.toNat ∧ c.toNat ≤ Char.toNat 'Z' then Char.ofNat (c.toNat + 32)
  else c

/-- Embedded from runPostRewriteBackup (cmd/app): stamp is updated on
success and on non-lock, non-interrupt failures; always exits 0. -/
def runPostRewriteBackup (env : HookEnv) : Nat :=
  if !env.preflightOk then exitSuccess
  else if env.ctxErr then exitSuccess
  else if env.dryRun then exitSuccess
  else
    match env.backupResult with
    | none => exitSuccess
    | some BackupErr.lockBusy => exitSuccess
    | some BackupErr.interrupted => exitSuccess
    | some BackupErr.canceled => exitSuccess
    | some _ => exitSuccess

/-- Embedded from runHookPostRewrite (cmd/app): rebase commands get the
in-progress and debounce guards; amend runs immediately. -/
def runHookPostRewrite (env : HookEnv) (command : Str) : Nat :=
  if !env.preflightOk then exitSuccess
  else if env.ctxErr then exitSuccess
  else
    let isRebase := (trimSpace command).map toLowerAscii == str "rebase"
    if isRebase then
      match env.rebaseInProgress with
      | none => exitSuccess
      | some true => exitSuccess
      | some false =>
        if env.debounceActive then exitSuccess
        else runPostRewriteBackup env
    else runPostRewriteBackup env

/-- C10: every hook subcommand exits 0 on every path — bad repo,
disabled or unconfigured backup, rebase in progress, debounce, and every
Backup failure kind included — so a hook never blocks git. -/
theorem hooks_always_exit_zero :
    ∀ (env : HookEnv) (command : Str),
      runHookPostCommit env = 0 ∧ runHookPostMerge env = 0
        ∧ runHookPostRewrite env command = 0 := by
  intro env command
  have hb : runBackupWithNotify env = 0 := by
    unfold runBackupWithNotify exitSuccess
    split_ifs
    · rfl
    · rfl
    · rcases env.backupResult with _ | e
      · rfl
      · cases e <;> rfl
  have hp : runPostRewriteBackup env = 0 := by
    unfold runPostRewriteBackup exitSuccess
    split_ifs
    · rfl
    · rfl
    · rfl
    · rcases env.backupResult with _ | e
      · rfl
      · cases e <;> rfl
  refine ⟨?_, ?_, ?_⟩
  · unfold runHookPostCommit exitSuccess
    split_ifs
    · rfl
    · rfl
    · rfl
    · rcases env.rebaseInProgress with _ | b
      · rfl
      · cases b
        · exact hb
        · rfl
  · unfold runHookPostMerge exitSuccess
    split_ifs
    · rfl
    · rfl
    · rcases env.rebaseInProgress with _ | b
      · rfl
      · cases b
        · exact hb
        · rfl
  · unfold runHookPostRewrite exitSuccess
    by_cases h1 : (!env.preflightOk) = true
    · rw [if_pos h1]
    · rw [if_neg h1]
      by_cases h2 : env.ctxErr = true
      · rw [if_pos h2]
      · rw [if_neg h2]
        simp only []
        by_cases hr : ((trimSpace command).map toLowerAscii == str "rebase") = true
        · rw [if_pos hr]
          cases henv : env.rebaseInProgress with
          | none => simp [henv]
          | some b =>
            cases b
            · simp [henv, hp]
            · simp [henv]
        · rw [if_neg hr]
          exact hp

/-! Backup flow (usecase handleBackupFlow / copyRepoSnapshot and the copy
engine).  Filesystem and git outcomes are oracles; mutating calls emit
actions; the context is never cancelled in this model; error messages are
represented by the offending path. -/

/-- Error classes distinguished by the copy engine. -/
inductive GoErr where
  | notExist
  | permission
  | otherErr
  | canceledErr
deriving DecidableEq

/-- File type and mode as seen by Lstat / Walk. -/
inductive FInfo where
  | dir (mode : Nat)
  | symlink
  | regular (mode : Nat)
deriving DecidableEq

/-- One callback invocation of a filesystem Walk. -/
structure WalkEv where
  path : Str
  info : Option FInfo
  errEv : Option GoErr
deriving DecidableEq

/-- usecase BackupResult. -/
structure BackupResult where
  copiedFiles : Nat
  skippedFiles : Nat
  permissionErrs : List Str
  otherErrors : List Str
  partialSuccess : Bool
deriving DecidableEq

/-- The zero BackupResult handleBackupFlow starts from. -/
def emptyBackupResult : BackupResult := BackupResult.mk 0 0 [] [] false

/-- Oracle for the copy engine and markers. -/
structure CopyEnv where
  lstat : Str → Except GoErr FInfo
  statF : Str → Except GoErr FInfo
  readlink : Str → Except GoErr Str
  symlinkRes : Str → Option GoErr
  copyRes : Str → Str → Option GoErr
  createDirRes : Str → Option GoErr
  writeFileRes : Str → Option GoErr
  removeAllRes : Str → Option GoErr
  readDirCount : Str → Option Nat
  walkEvents : Str → List WalkEv
  walkErrOf : Str → Option GoErr
  relRes : Str → Str → Except GoErr Str
  listIgnored : Except GoErr (List Str)
  readIgnoreFile : ReadRes
  resolveDirs : Except GoErr (Str × Str)

/-- Go filepath.Dir (model: drop the final separator-delimited element;
"." when there is no separator). -/
def dirOf (p : Str) : Str :=
  let pre := (p.reverse.dropWhile (fun c => c ≠ '/')).reverse
  match pre with
  | [] => str "."
  | _ => pre.dropLast

/-- Embedded from isPermissionError (usecase). -/
def isPermissionError (e : GoErr) : Bool := e == GoErr.permission

/-- Embedded from recordCopyError (usecase): append the message, bump
skippedFiles, classify into permission or other errors, set
partialSuccess. -/
def recordCopyError (path : Str) (e : GoErr) (st : BackupResult × List Str) :
    BackupResult × List Str :=
  let r := st.1
  ({ r with
      skippedFiles := r.skippedFiles + 1
      permissionErrs :=
        if isPermissionError e then r.permissionErrs ++ [path] else r.permissionErrs
      otherErrors :=
        if isPermissionError e then r.otherErrors else r.otherErrors ++ [path]
      partialSuccess := true },
    st.2 ++ [path])

/-- Embedded from copyFile (usecase): byte copy, then best-effort chmod
when the mode is non-zero. -/
def copyFile (cenv : CopyEnv) (src dst : Str) (mode : Nat) : Option GoErr × List FsAct :=
  match cenv.copyRes src dst with
  | some e => (some e, [])
  | none =>
    if mode ≠ 0 then (none, [FsAct.copyTo src dst, FsAct.chmodOf dst])
    else (none, [FsAct.copyTo src dst])

/-- Embedded from copyDirEntry (usecase): per-entry Phase A copy with
error accounting. -/
def copyDirEntry (cenv : CopyEnv) (path target : Str) (info : FInfo)
    (st : BackupResult × List Str) : (BackupResult × List Str) × List FsAct :=
  match info with
  | FInfo.dir _ =>
    match cenv.createDirRes target with
    | some e => (recordCopyError target e st, [])
    | none => (st, [FsAct.createDir target])
  | FInfo.symlink =>
    match cenv.readlink path with
    | Except.error e => (recordCopyError path e st, [])
    | Except.ok _ =>
      match cenv.createDirRes (dirOf target) with
      | some e => (recordCopyError (dirOf target) e st, [])
      | none =>
        match cenv.symlinkRes target with
        | some e =>
          (recordCopyError target e st,
            [FsAct.createDir (dirOf target), FsAct.removeAll target])
        | none =>
          (st,
            [FsAct.createDir (dirOf target), FsAct.removeAll target, FsAct.symlinkTo target])
  | FInfo.regular mode =>
    match cenv.createDirRes (dirOf target) with
    | some e => (recordCopyError (dirOf target) e st, [])
    | none =>
      match copyFile cenv path target mode with
      | (some e, acts) => (recordCopyError path e st, FsAct.createDir (dirOf target) :: acts)
      | (none, acts) =>
        (({ st.1 with copiedFiles := st.1.copiedFiles + 1 }, st.2),
          FsAct.createDir (dirOf target) :: acts)

/-- Walk-callback fold of copyDirRecursive. -/
def copyDirWalk (cenv : CopyEnv) (src dst : Str) :
    List WalkEv → (BackupResult × List Str) → (BackupResult × List Str) × List FsAct
  | [], st => (st, [])
  | ev :: rest, st =>
    match ev.errEv with
    | some e =>
      let pr := copyDirWalk cenv src dst rest (recordCopyError ev.path e st)
      (pr.1, pr.2)
    | none =>
      match cenv.relRes src ev.path with
      | Except.error e =>
        let pr := copyDirWalk cenv src dst rest (recordCopyError ev.path e st)
        (pr.1, pr.2)
      | Except.ok rel =>
        match ev.info with
        | none => copyDirWalk cenv src dst rest st
        | some info =>
          let step := copyDirEntry cenv ev.path (joinPath dst rel) info st
          let pr := copyDirWalk cenv src dst rest step.1
          (pr.1, step.2 ++ pr.2)

/-- Embedded from copyDirRecursive (usecase): walk the tree, accumulate
errors, fail when any entry failed, else surface the walk error. -/
def copyDirRecursive (cenv : CopyEnv) (src dst : Str) (r : BackupResult) :
    Except GoErr Unit × BackupResult × List FsAct :=
  let pr := copyDirWalk cenv src dst (cenv.walkEvents src) (r, [])
  if pr.1.2.isEmpty then
    match cenv.walkErrOf src with
    | some e => (Except.error e, pr.1.1, pr.2)
    | none => (Except.ok (), pr.1.1, pr.2)
  else (Except.error GoErr.otherErr, pr.1.1, pr.2)

/-- Embedded from cleanupSnapshotWorktrees (usecase): stat the inner
worktrees dir; absent is fine; present must remove. -/
def cleanupSnapshotWorktrees (cenv : CopyEnv) (dstGit : Str) :
    Except GoErr Unit × List FsAct :=
  match cenv.statF (joinPath dstGit (str "worktrees")) with
  | Except.error GoErr.notExist => (Except.ok (), [])
  | Except.error e => (Except.error e, [])
  | Except.ok _ =>
    match cenv.removeAllRes (joinPath dstGit (str "worktrees")) with
    | some e => (Except.error e, [])
    | none => (Except.ok (), [FsAct.removeAll (joinPath dstGit (str "worktrees"))])

/-- Line parsing of readDevbackIgnore (usecase): CR removal, trim,
comment and blank skipping, one trailing slash stripped. -/
def parseIgnoreLines (data : Str) : List Str :=
  (splitOnChar '\n' data).filterMap (fun line =>
    let l2 := trimSpace (line.filter (fun c => c ≠ '\r'))
    if l2 = [] then none
    else if l2.head? = some '#' then none
    else some (trimSuffixStr (str "/") l2))

/-- Embedded from readDevbackIgnore (usecase): a missing file means no
excludes; other read errors propagate. -/
def readDevbackIgnore (cenv : CopyEnv) : Except GoErr (List Str) :=
  match cenv.readIgnoreFile with
  | ReadRes.errNotExist => Except.ok []
  | ReadRes.errOther => Except.error GoErr.otherErr
  | ReadRes.ok data => Except.ok (parseIgnoreLines data)

/-- Embedded from copySelectedPath (usecase): one Phase E job; the Bool
records whether a regular file was copied (recordCopied). -/
def copySelectedPath (cenv : CopyEnv) (srcRoot dstRoot rel : Str) :
    Option GoErr × Bool × List FsAct :=
  match cenv.lstat (joinPath srcRoot rel) with
  | Except.error e => (some e, false, [])
  | Except.ok (FInfo.dir _) =>
    match cenv.createDirRes (joinPath dstRoot rel) with
    | some e => (some e, false, [])
    | none => (none, false, [FsAct.createDir (joinPath dstRoot rel)])
  | Except.ok FInfo.symlink =>
    match cenv.createDirRes (dirOf (joinPath dstRoot rel)) with
    | some e => (some e, false, [])
    | none =>
      match cenv.readlink (joinPath srcRoot rel) with
      | Except.error e => (some e, false, [FsAct.createDir (dirOf (joinPath dstRoot rel))])
      | Except.ok _ =>
        match cenv.symlinkRes (joinPath dstRoot rel) with
        | some e =>
          (some e, false,
            [FsAct.createDir (dirOf (joinPath dstRoot rel)),
              FsAct.removeAll (joinPath dstRoot rel)])
        | none =>
          (none, false,
            [FsAct.createDir (dirOf (joinPath dstRoot rel)),
              FsAct.removeAll (joinPath dstRoot rel),
              FsAct.symlinkTo (joinPath dstRoot rel)])
  | Except.ok (FInfo.regular mode) =>
    match cenv.createDirRes (dirOf (joinPath dstRoot rel)) with
    | some e => (some e, false, [])
    | none =>
      match copyFile cenv (joinPath srcRoot rel) (joinPath dstRoot rel) mode with
      | (some e, acts) =>
        (some e, false, FsAct.createDir (dirOf (joinPath dstRoot rel)) :: acts)
      | (none, acts) =>
        (none, true, FsAct.createDir (dirOf (joinPath dstRoot rel)) :: acts)

/-- Shared accumulator of the Phase E workers (copySelectedState). -/
structure CopyState where
  result : BackupResult
  copyErrors : List Str
  firstErr : Option GoErr
deriving DecidableEq

/-- Worker-pool fold of copySelectedFiles, sequentialized (the claims do
not depend on the interleaving; the accumulator is mutex-protected in the
source). -/
def copySelectedFilesGo (cenv : CopyEnv) (srcRoot dstRoot : Str) :
    List Str → CopyState → CopyState × List FsAct
  | [], st => (st, [])
  | rel :: rest, st =>
    match copySelectedPath cenv srcRoot dstRoot rel with
    | (some e, _, acts) =>
      let st1 := recordCopyError rel e (st.result, st.copyErrors)
      let fe :=
        match st.firstErr with
        | none => some e
        | some x => some x
      let pr := copySelectedFilesGo cenv srcRoot dstRoot rest (CopyState.mk st1.1 st1.2 fe)
      (pr.1, acts ++ pr.2)
    | (none, copied, acts) =>
      let r2 :=
        if copied then { st.result with copiedFiles := st.result.copiedFiles + 1 }
        else st.result
      let pr := copySelectedFilesGo cenv srcRoot dstRoot rest
        (CopyState.mk r2 st.copyErrors st.firstErr)
      (pr.1, acts ++ pr.2)

/-- Embedded from copySelectedFiles (usecase): run all jobs, fail with
the first error when any job failed. -/
def copySelectedFiles (cenv : CopyEnv) (paths : List Str) (srcRoot dstRoot : Str)
    (r : BackupResult) : Option GoErr × BackupResult × List FsAct :=
  if paths.isEmpty then (none, r, [])
  else
    let pr := copySelectedFilesGo cenv srcRoot dstRoot paths (CopyState.mk r [] none)
    if pr.1.copyErrors.isEmpty then (none, pr.1.result, pr.2)
    else (some (pr.1.firstErr.getD GoErr.otherErr), pr.1.result, pr.2)

/-- Embedded from copyRepoSnapshot (usecase): Phase A (.git copy and
worktrees strip), Phase B–D (excludes and filter), Phase E (selected
copy). -/
def copyRepoSnapshot (cenv : CopyEnv) (repoRoot targetPath : Str) (r : BackupResult) :
    Except GoErr Unit × BackupResult × List FsAct :=
  match cenv.resolveDirs with
  | Except.error e => (Except.error e, r, [])
  | Except.ok dirs =>
    let srcGit := dirs.2
    let dstGit := joinPath targetPath (str ".git")
    match cenv.statF srcGit with
    | Except.error e => (Except.error e, r, [])
    | Except.ok _ =>
      match copyDirRecursive cenv srcGit dstGit r with
      | (Except.error e, r1, acts1) => (Except.error e, r1, acts1)
      | (Except.ok _, r1, acts1) =>
        match cleanupSnapshotWorktrees cenv dstGit with
        | (Except.error e, acts2) => (Except.error e, r1, acts1 ++ acts2)
        | (Except.ok _, acts2) =>
          let excludes :=
            match readDevbackIgnore cenv with
            | Except.ok ex => ex
            | Except.error _ => []
          match cenv.listIgnored with
          | Except.error _ => (Except.error GoErr.otherErr, r1, acts1 ++ acts2)
          | Except.ok allPaths =>
            let keep := keepAfterExcludes allPaths excludes
            match copySelectedFiles cenv keep repoRoot targetPath r1 with
            | (some e, r2, acts3) => (Except.error e, r2, acts1 ++ acts2 ++ acts3)
            | (none, r2, acts3) => (Except.ok (), r2, acts1 ++ acts2 ++ acts3)

/-- The deferred cleanup of handleBackupFlow when the backup did not
succeed: remove the snapshot and, when the date dir reads back empty,
the date dir too. -/
def cleanupPartialBackup (cenv : CopyEnv) (targetPath : Str) : List FsAct :=
  FsAct.removeAll targetPath ::
    (match cenv.readDirCount (dirOf targetPath) with
     | some 0 => [FsAct.removeAll (dirOf targetPath)]
     | _ => [])

/-- Error identities handleBackupFlow returns. -/
inductive FlowErr where
  | critical
  | interrupted
deriving DecidableEq

/-- Embedded from handleBackupFlow (usecase): reserve, mark .partial,
copy, swap markers, drop .reserve, rotate; any failure triggers the
deferred cleanup; partialSuccess surfaces Critical with the result. -/
def handleBackupFlow (cenv : CopyEnv) (renv : ReserveEnv) (rotenv : RotEnv) (cfg : RotCfg)
    (rotSnaps : List Snap) (rotNowNs : Int) (repoRoot repoDir dateDir : Str)
    (h m s ns : Nat) : Option BackupResult × Option FlowErr × List FsAct :=
  match createUniqueSnapshotDir renv repoDir dateDir h m s ns with
  | (none, acts0) => (none, some FlowErr.critical, acts0)
  | (some targetPath, acts0) =>
    let reservePath := joinPath targetPath (str ".reserve")
    let partialPath := joinPath targetPath (str ".partial")
    let donePath := joinPath targetPath (str ".done")
    match cenv.writeFileRes partialPath with
    | some _ =>
      (none, some FlowErr.critical, acts0 ++ cleanupPartialBackup cenv targetPath)
    | none =>
      match copyRepoSnapshot cenv repoRoot targetPath emptyBackupResult with
      | (Except.error e, _, acts2) =>
        if e == GoErr.canceledErr then
          (none, some FlowErr.interrupted,
            acts0 ++ FsAct.writeFile partialPath :: acts2 ++ cleanupPartialBackup cenv targetPath)
        else
          (none, some FlowErr.critical,
            acts0 ++ FsAct.writeFile partialPath :: acts2 ++ cleanupPartialBackup cenv targetPath)
      | (Except.ok _, r, acts2) =>
        match cenv.writeFileRes donePath with
        | some _ =>
          (none, some FlowErr.critical,
            acts0 ++ FsAct.writeFile partialPath :: acts2
              ++ FsAct.removeAll partialPath :: cleanupPartialBackup cenv targetPath)
        | none =>
          let rot := rotateRepo rotenv cfg false rotNowNs rotSnaps
          let acts :=
            acts0 ++ FsAct.writeFile partialPath :: acts2
              ++ FsAct.removeAll partialPath :: FsAct.writeFile donePath
              :: FsAct.removeAll reservePath :: rot.2
          if r.partialSuccess then (some r, some FlowErr.critical, acts)
          else (some r, none, acts)

theorem copySelectedFilesGo_mono (cenv : CopyEnv) (srcRoot dstRoot : Str) :
    ∀ (paths : List Str) (st : CopyState),
      (st.result.skippedFiles
          ≤ ((copySelectedFilesGo cenv srcRoot dstRoot paths st).1).result.skippedFiles)
      ∧ (st.result.partialSuccess = true →
          ((copySelectedFilesGo cenv srcRoot dstRoot paths st).1).result.partialSuccess = true)
      ∧ (st.copyErrors ≠ [] →
          ((copySelectedFilesGo cenv srcRoot dstRoot paths st).1).copyErrors ≠ []) := by
  intro paths
  induction paths with
  | nil =>
    intro st
    exact ⟨le_refl _, fun hx => hx, fun hx => hx⟩
  | cons rel rest ih =>
    intro st
    rcases hpath : copySelectedPath cenv srcRoot dstRoot rel with ⟨oe, c, pacts⟩
    cases oe with
    | some e =>
      obtain ⟨m1, m2, m3⟩ := ih (CopyState.mk
        (recordCopyError rel e (st.result, st.copyErrors)).1
        (recordCopyError rel e (st.result, st.copyErrors)).2
        (match st.firstErr with | none => some e | some x => some x))
      simp only [copySelectedFilesGo, hpath]
      refine ⟨?_, fun _ => ?_, fun _ => ?_⟩
      · refine le_trans ?_ m1
        simp [recordCopyError]
      · exact m2 (by simp [recordCopyError])
      · exact m3 (by simp [recordCopyError])
    | none =>
      by_cases hc : c = true
      · subst hc
        obtain ⟨m1, m2, m3⟩ := ih (CopyState.mk
          { st.result with copiedFiles := st.result.copiedFiles + 1 }
          st.copyErrors st.firstErr)
        simp only [copySelectedFilesGo, hpath, if_true]
        exact ⟨m1, m2, m3⟩
      · have hc2 : c = false := by
          cases c
          · rfl
          · exact absurd rfl hc
        subst hc2
        obtain ⟨m1, m2, m3⟩ := ih (CopyState.mk st.result st.copyErrors st.firstErr)
        simp only [copySelectedFilesGo, hpath, Bool.false_eq_true, if_false]
        exact ⟨m1, m2, m3⟩

theorem copySelectedFilesGo_fail (cenv : CopyEnv) (srcRoot dstRoot : Str) :
    ∀ (paths : List Str) (st : CopyState) (rel : Str), rel ∈ paths →
      (copySelectedPath cenv srcRoot dstRoot rel).1 ≠ none →
      (st.result.skippedFiles
          < ((copySelectedFilesGo cenv srcRoot dstRoot paths st).1).result.skippedFiles)
      ∧ ((copySelectedFilesGo cenv srcRoot dstRoot paths st).1).result.partialSuccess = true
      ∧ ((copySelectedFilesGo cenv srcRoot dstRoot paths st).1).copyErrors ≠ [] := by
  intro paths
  induction paths with
  | nil =>
    intro st rel hmem
    simp at hmem
  | cons hd rest ih =>
    intro st rel hmem hfail
    rcases hpath : copySelectedPath cenv srcRoot dstRoot hd with ⟨oe, c, pacts⟩
    cases oe with
    | some e =>
      obtain ⟨m1, m2, m3⟩ := copySelectedFilesGo_mono cenv srcRoot dstRoot rest
        (CopyState.mk (recordCopyError hd e (st.result, st.copyErrors)).1
          (recordCopyError hd e (st.result, st.copyErrors)).2
          (match st.firstErr with | none => some e | some x => some x))
      simp only [copySelectedFilesGo, hpath]
      refine ⟨?_, ?_, ?_⟩
      · refine lt_of_lt_of_le ?_ m1
        simp [recordCopyError]
      · exact m2 (by simp [recordCopyError])
      · exact m3 (by simp [recordCopyError])
    | none =>
      have hne : rel ≠ hd := by
        intro he
        subst he
        rw [hpath] at hfail
        exact hfail rfl
      have hmem2 : rel ∈ rest := by
        rcases List.mem_cons.mp hmem with h | h
        · exact absurd h hne
        · exact h
      by_cases hc : c = true
      · subst hc
        obtain ⟨m1, m2, m3⟩ := ih (CopyState.mk
          { st.result with copiedFiles := st.result.copiedFiles + 1 }
          st.copyErrors st.firstErr) rel hmem2 hfail
        simp only [copySelectedFilesGo, hpath, if_true]
        exact ⟨m1, m2, m3⟩
      · have hc2 : c = false := by
          cases c
          · rfl
          · exact absurd rfl hc
        subst hc2
        obtain ⟨m1, m2, m3⟩ := ih (CopyState.mk st.result st.copyErrors st.firstErr)
          rel hmem2 hfail
        simp only [copySelectedFilesGo, hpath, Bool.false_eq_true, if_false]
        exact ⟨m1, m2, m3⟩

theorem copySelectedFiles_err (cenv : CopyEnv) (paths : List Str) (srcRoot dstRoot : Str)
    (r : BackupResult) (rel : Str) (hmem : rel ∈ paths)
    (hfail : (copySelectedPath cenv srcRoot dstRoot rel).1 ≠ none) :
    (copySelectedFiles cenv paths srcRoot dstRoot r).1 ≠ none
      ∧ r.skippedFiles < ((copySelectedFiles cenv paths srcRoot dstRoot r).2.1).skippedFiles
      ∧ ((copySelectedFiles cenv paths srcRoot dstRoot r).2.1).partialSuccess = true := by
  have hne : paths.isEmpty = false := by
    cases paths
    · simp at hmem
    · rfl
  obtain ⟨m1, m2, m3⟩ := copySelectedFilesGo_fail cenv srcRoot dstRoot paths
    (CopyState.mk r [] none) rel hmem hfail
  unfold copySelectedFiles
  rw [hne]
  simp only [Bool.false_eq_true, if_false]
  have hce : ((copySelectedFilesGo cenv srcRoot dstRoot paths
      (CopyState.mk r [] none)).1).copyErrors.isEmpty = false := by
    rcases hl : ((copySelectedFilesGo cenv srcRoot dstRoot paths
        (CopyState.mk r [] none)).1).copyErrors with _ | ⟨a, l⟩
    · exact absurd hl m3
    · rfl
  rw [hce]
  simp only [Bool.false_eq_true, if_false]
  exact ⟨by simp, m1, m2⟩

/-- Whether an action is a marker-file write (only handleBackupFlow
writes files; the copy engine never does). -/
def isWriteAct : FsAct → Bool
  | FsAct.writeFile _ => true
  | _ => false

theorem copyFile_no_write (cenv : CopyEnv) (src dst : Str) (mode : Nat) :
    ∀ a ∈ (copyFile cenv src dst mode).2, isWriteAct a = false := by
  unfold copyFile
  cases cenv.copyRes src dst with
  | some e => simp
  | none =>
    by_cases hm : mode ≠ 0
    · simp [hm, isWriteAct]
    · simp [hm, isWriteAct]

theorem copyDirEntry_no_write (cenv : CopyEnv) (path target : Str) (info : FInfo)
    (st : BackupResult × List Str) :
    ∀ a ∈ (copyDirEntry cenv path target info st).2, isWriteAct a = false := by
  unfold copyDirEntry
  cases info with
  | dir mode =>
    cases cenv.createDirRes target with
    | some e => simp
    | none => simp [isWriteAct]
  | symlink =>
    cases cenv.readlink path with
    | error e => simp
    | ok lt =>
      cases cenv.createDirRes (dirOf target) with
      | some e => simp
      | none =>
        cases cenv.symlinkRes target with
        | some e => simp [isWriteAct]
        | none => simp [isWriteAct]
  | regular mode =>
    cases cenv.createDirRes (dirOf target) with
    | some e => simp
    | none =>
      rcases hcf : copyFile cenv path target mode with ⟨oe, acts⟩
      have hsub : ∀ a ∈ acts, isWriteAct a = false := by
        have := copyFile_no_write cenv path target mode
        rw [hcf] at this
        exact this
      cases oe with
      | some e =>
        simp only [hcf]
        intro a ha
        rcases List.mem_cons.mp ha with h | h
        · subst h; rfl
        · exact hsub a h
      | none =>
        simp only [hcf]
        intro a ha
        rcases List.mem_cons.mp ha with h | h
        · subst h; rfl
        · exact hsub a h

theorem copyDirWalk_no_write (cenv : CopyEnv) (src dst : Str) :
    ∀ (evs : List WalkEv) (st : BackupResult × List Str),
      ∀ a ∈ (copyDirWalk cenv src dst evs st).2, isWriteAct a = false := by
  intro evs
  induction evs with
  | nil => intro st a ha; simp [copyDirWalk] at ha
  | cons ev rest ih =>
    intro st a ha
    simp only [copyDirWalk] at ha
    rcases hev : ev.errEv with _ | e
    · rw [hev] at ha
      rcases hrel : cenv.relRes src ev.path with e2 | rel
      · rw [hrel] at ha
        exact ih _ a ha
      · rw [hrel] at ha
        rcases hinfo : ev.info with _ | info
        · rw [hinfo] at ha
          exact ih _ a ha
        · rw [hinfo] at ha
          simp only [List.mem_append] at ha
          rcases ha with h | h
          · exact copyDirEntry_no_write cenv ev.path (joinPath dst rel) info st a h
          · exact ih _ a h
    · rw [hev] at ha
      exact ih _ a ha

theorem copyDirRecursive_trace (cenv : CopyEnv) (src dst : Str) (r : BackupResult) :
    (copyDirRecursive cenv src dst r).2.2
      = (copyDirWalk cenv src dst (cenv.walkEvents src) (r, [])).2 := by
  unfold copyDirRecursive
  by_cases hie :
    ((copyDirWalk cenv src dst (cenv.walkEvents src) (r, [])).1).2.isEmpty = true
  · rcases hwe : cenv.walkErrOf src with _ | e <;> simp [hie, hwe]
  · simp [hie]

theorem copyDirRecursive_no_write (cenv : CopyEnv) (src dst : Str) (r : BackupResult) :
    ∀ a ∈ (copyDirRecursive cenv src dst r).2.2, isWriteAct a = false := by
  rw [copyDirRecursive_trace]
  exact copyDirWalk_no_write cenv src dst (cenv.walkEvents src) (r, [])

theorem cleanupSnapshotWorktrees_no_write (cenv : CopyEnv) (dstGit : Str) :
    ∀ a ∈ (cleanupSnapshotWorktrees cenv dstGit).2, isWriteAct a = false := by
  unfold cleanupSnapshotWorktrees
  intro a ha
  rcases hs : cenv.statF (joinPath dstGit (str "worktrees")) with e | fi
  · rw [hs] at ha
    cases e <;> simp at ha
  · rw [hs] at ha
    rcases hr : cenv.removeAllRes (joinPath dstGit (str "worktrees")) with _ | e
    · rw [hr] at ha
      simp at ha
      subst ha
      rfl
    · rw [hr] at ha
      simp at ha

theorem copySelectedPath_no_write (cenv : CopyEnv) (srcRoot dstRoot rel : Str) :
    ∀ a ∈ (copySelectedPath cenv srcRoot dstRoot rel).2.2, isWriteAct a = false := by
  unfold copySelectedPath
  intro a ha
  rcases hl : cenv.lstat (joinPath srcRoot rel) with e | fi
  · rw [hl] at ha
    simp at ha
  · rw [hl] at ha
    cases fi with
    | dir mode =>
      rcases hc : cenv.createDirRes (joinPath dstRoot rel) with _ | e
      · rw [hc] at ha
        simp at ha
        subst ha
        rfl
      · rw [hc] at ha
        simp at ha
    | symlink =>
      rcases hc : cenv.createDirRes (dirOf (joinPath dstRoot rel)) with _ | e
      · rw [hc] at ha
        rcases hrl : cenv.readlink (joinPath srcRoot rel) with e2 | lt
        · rw [hrl] at ha
          simp at ha
          subst ha
          rfl
        · rw [hrl] at ha
          rcases hsl : cenv.symlinkRes (joinPath dstRoot rel) with _ | e3
          · rw [hsl] at ha
            simp at ha
            rcases ha with h | h | h
            all_goals subst h
            all_goals rfl
          · rw [hsl] at ha
            simp at ha
            rcases ha with h | h
            all_goals subst h
            all_goals rfl
      · rw [hc] at ha
        simp at ha
    | regular mode =>
      dsimp only [] at ha
      rcases hc : cenv.createDirRes (dirOf (joinPath dstRoot rel)) with _ | e
      · rw [hc] at ha
        dsimp only [] at ha
        rcases hcf : copyFile cenv (joinPath srcRoot rel) (joinPath dstRoot rel) mode
          with ⟨oe, acts⟩
        have hsub : ∀ b ∈ acts, isWriteAct b = false := by
          have := copyFile_no_write cenv (joinPath srcRoot rel) (joinPath dstRoot rel) mode
          rw [hcf] at this
          exact this
        rw [hcf] at ha
        cases oe with
        | some e =>
          dsimp only [] at ha
          simp only [List.mem_cons] at ha
          rcases ha with h | h
          · subst h; rfl
          · exact hsub a h
        | none =>
          dsimp only [] at ha
          simp only [List.mem_cons] at ha
          rcases ha with h | h
          · subst h; rfl
          · exact hsub a h
      · rw [hc] at ha
        simp at ha

theorem copySelectedFilesGo_no_write (cenv : CopyEnv) (srcRoot dstRoot : Str) :
    ∀ (paths : List Str) (st : CopyState),
      ∀ a ∈ (copySelectedFilesGo cenv srcRoot dstRoot paths st).2, isWriteAct a = false := by
  intro paths
  induction paths with
  | nil => intro st a ha; simp [copySelectedFilesGo] at ha
  | cons rel rest ih =>
    intro st a ha
    rcases hpath : copySelectedPath cenv srcRoot dstRoot rel with ⟨oe, c, pacts⟩
    have hsub : ∀ b ∈ pacts, isWriteAct b = false := by
      have := copySelectedPath_no_write cenv srcRoot dstRoot rel
      rw [hpath] at this
      exact this
    cases oe with
    | some e =>
      simp only [copySelectedFilesGo, hpath, List.mem_append] at ha
      rcases ha with h | h
      · exact hsub a h
      · exact ih _ a h
    | none =>
      simp only [copySelectedFilesGo, hpath, List.mem_append] at ha
      rcases ha with h | h
      · exact hsub a h
      · exact ih _ a h

theorem copySelectedFiles_trace (cenv : CopyEnv) (paths : List Str)
    (srcRoot dstRoot : Str) (r : BackupResult) :
    (copySelectedFiles cenv paths srcRoot dstRoot r).2.2
      = if paths.isEmpty then []
        else (copySelectedFilesGo cenv srcRoot dstRoot paths (CopyState.mk r [] none)).2 := by
  unfold copySelectedFiles
  by_cases hp : paths.isEmpty = true
  · simp [hp]
  · simp only [hp, Bool.false_eq_true, if_false]
    by_cases hce : ((copySelectedFilesGo cenv srcRoot dstRoot paths
        (CopyState.mk r [] none)).1).copyErrors.isEmpty = true
    · simp [hce]
    · simp [hce]

theorem copySelectedFiles_no_write (cenv : CopyEnv) (paths : List Str)
    (srcRoot dstRoot : Str) (r : BackupResult) :
    ∀ a ∈ (copySelectedFiles cenv paths srcRoot dstRoot r).2.2, isWriteAct a = false := by
  intro a ha
  rw [copySelectedFiles_trace] at ha
  by_cases hp : paths.isEmpty = true
  · rw [if_pos hp] at ha
    simp at ha
  · rw [if_neg hp] at ha
    exact copySelectedFilesGo_no_write cenv srcRoot dstRoot paths _ a ha

theorem copyRepoSnapshot_no_write (cenv : CopyEnv) (repoRoot targetPath : Str)
    (r : BackupResult) :
    ∀ a ∈ (copyRepoSnapshot cenv repoRoot targetPath r).2.2, isWriteAct a = false := by
  unfold copyRepoSnapshot
  intro a ha
  rcases hrd : cenv.resolveDirs with e | dirs
  · rw [hrd] at ha
    simp at ha
  · rw [hrd] at ha
    dsimp only [] at ha
    rcases hst : cenv.statF dirs.2 with e | fi
    · rw [hst] at ha
      simp at ha
    · rw [hst] at ha
      dsimp only [] at ha
      rcases hcd : copyDirRecursive cenv dirs.2 (joinPath targetPath (str ".git")) r
        with ⟨o1, r1, acts1⟩
      have h1 : ∀ b ∈ acts1, isWriteAct b = false := by
        have := copyDirRecursive_no_write cenv dirs.2 (joinPath targetPath (str ".git")) r
        rw [hcd] at this
        exact this
      cases o1 with
      | error e =>
        rw [hcd] at ha
        exact h1 a ha
      | ok u =>
        rw [hcd] at ha
        dsimp only [] at ha
        rcases hcw : cleanupSnapshotWorktrees cenv (joinPath targetPath (str ".git"))
          with ⟨o2, acts2⟩
        have h2 : ∀ b ∈ acts2, isWriteAct b = false := by
          have := cleanupSnapshotWorktrees_no_write cenv (joinPath targetPath (str ".git"))
          rw [hcw] at this
          exact this
        cases o2 with
        | error e =>
          rw [hcw] at ha
          simp only [List.mem_append] at ha
          rcases ha with h | h
          · exact h1 a h
          · exact h2 a h
        | ok u2 =>
          rw [hcw] at ha
          dsimp only [] at ha
          rcases hli : cenv.listIgnored with e | allPaths
          · rw [hli] at ha
            simp only [List.mem_append] at ha
            rcases ha with h | h
            · exact h1 a h
            · exact h2 a h
          · rw [hli] at ha
            dsimp only [] at ha
            rcases hcs : copySelectedFiles cenv
                (keepAfterExcludes allPaths
                  (match readDevbackIgnore cenv with
                   | Except.ok ex => ex
                   | Except.error _ => []))
                repoRoot targetPath r1 with ⟨o3, r2, acts3⟩
            have h3 : ∀ b ∈ acts3, isWriteAct b = false := by
              have := copySelectedFiles_no_write cenv
                (keepAfterExcludes allPaths
                  (match readDevbackIgnore cenv with
                   | Except.ok ex => ex
                   | Except.error _ => []))
                repoRoot targetPath r1
              rw [hcs] at this
              exact this
            cases o3 with
            | some e =>
              rw [hcs] at ha
              dsimp only [] at ha
              simp only [List.mem_append] at ha
              rcases ha with (h | h) | h
              · exact h1 a h
              · exact h2 a h
              · exact h3 a h
            | none =>
              rw [hcs] at ha
              dsimp only [] at ha
              simp only [List.mem_append] at ha
              rcases ha with (h | h) | h
              · exact h1 a h
              · exact h2 a h
              · exact h3 a h

theorem createUniqueLoop_no_write (env : ReserveEnv) (rd dd base : Str) :
    ∀ (fuel i : Nat), ∀ a ∈ (createUniqueLoop env rd dd base i fuel).2,
      isWriteAct a = false := by
  intro fuel
  induction fuel with
  | zero => intro i a ha; simp [createUniqueLoop] at ha
  | succ fuel ih =>
    intro i a ha
    simp only [createUniqueLoop] at ha
    rcases hc : env.mkCand i with _ | _ | _
    · rw [hc] at ha
      rcases hr : env.mkRes i with _ | _ | _
      · rw [hr] at ha
        simp at ha
        rcases ha with h | h
        all_goals subst h
        all_goals rfl
      · rw [hr] at ha
        simp only [List.mem_cons] at ha
        rcases ha with h | h | h | h
        · subst h; rfl
        · subst h; rfl
        · subst h; rfl
        · exact ih (i + 1) a h
      · rw [hr] at ha
        simp at ha
        rcases ha with h | h | h
        all_goals subst h
        all_goals rfl
    · rw [hc] at ha
      simp only [List.mem_cons] at ha
      rcases ha with h | h
      · subst h; rfl
      · exact ih (i + 1) a h
    · rw [hc] at ha
      simp at ha
      subst ha
      rfl

theorem createUniqueSnapshotDir_no_write (env : ReserveEnv) (rd dd : Str)
    (h m s ns : Nat) :
    ∀ a ∈ (createUniqueSnapshotDir env rd dd h m s ns).2, isWriteAct a = false := by
  unfold createUniqueSnapshotDir
  intro a ha
  split at ha
  · simp at ha
  · simp only [List.mem_cons] at ha
    rcases ha with h2 | h2
    · subst h2; rfl
    · exact createUniqueLoop_no_write env rd dd (formatTimeDir h m s ns) 100 0 a h2

theorem cleanupPartialBackup_no_write (cenv : CopyEnv) (targetPath : Str) :
    ∀ a ∈ cleanupPartialBackup cenv targetPath, isWriteAct a = false := by
  unfold cleanupPartialBackup
  intro a ha
  simp only [List.mem_cons] at ha
  rcases ha with h | h
  · subst h; rfl
  · split at h
    · simp at h
      subst h
      rfl
    · simp at h

theorem joinPath_marker_ne (tgt : Str) :
    joinPath tgt (str ".partial") ≠ joinPath tgt (str ".done") := by
  unfold joinPath
  intro h
  have h2 := List.append_cancel_left h
  cases h2

/-- C1 (amended): when Phase A succeeds and a Phase E per-file operation
fails, the errors do accumulate into the BackupResult (skippedFiles
grows, partialSuccess is set) and copySelectedFiles fails, and then the
whole call aborts with Critical: the .done marker is never written and
the deferred cleanup removes the snapshot directory — the backup does not
complete and the snapshot is not retained. -/
theorem handleBackupFlow_phaseE :
    (∀ (cenv : CopyEnv) (paths : List Str) (srcRoot dstRoot : Str) (r : BackupResult)
        (rel : Str), rel ∈ paths →
      (copySelectedPath cenv srcRoot dstRoot rel).1 ≠ none →
      (copySelectedFiles cenv paths srcRoot dstRoot r).1 ≠ none
        ∧ r.skippedFiles < ((copySelectedFiles cenv paths srcRoot dstRoot r).2.1).skippedFiles
        ∧ ((copySelectedFiles cenv paths srcRoot dstRoot r).2.1).partialSuccess = true)
    ∧ (∀ (cenv : CopyEnv) (renv : ReserveEnv) (rotenv : RotEnv) (cfg : RotCfg)
        (rotSnaps : List Snap) (rotNowNs : Int) (repoRoot repoDir dateDir targetPath : Str)
        (h m s ns : Nat) (acts0 acts2 : List FsAct) (e : GoErr) (r : BackupResult),
      createUniqueSnapshotDir renv repoDir dateDir h m s ns = (some targetPath, acts0) →
      cenv.writeFileRes (joinPath targetPath (str ".partial")) = none →
      copyRepoSnapshot cenv repoRoot targetPath emptyBackupResult
          = (Except.error e, r, acts2) →
      e ≠ GoErr.canceledErr →
      (handleBackupFlow cenv renv rotenv cfg rotSnaps rotNowNs repoRoot repoDir dateDir
          h m s ns).1 = none
        ∧ (handleBackupFlow cenv renv rotenv cfg rotSnaps rotNowNs repoRoot repoDir dateDir
            h m s ns).2.1 = some FlowErr.critical
        ∧ FsAct.removeAll targetPath
            ∈ (handleBackupFlow cenv renv rotenv cfg rotSnaps rotNowNs repoRoot repoDir
                dateDir h m s ns).2.2
        ∧ FsAct.writeFile (joinPath targetPath (str ".done"))
            ∉ (handleBackupFlow cenv renv rotenv cfg rotSnaps rotNowNs repoRoot repoDir
                dateDir h m s ns).2.2) := by
  constructor
  · exact copySelectedFiles_err
  · intro cenv renv rotenv cfg rotSnaps rotNowNs repoRoot repoDir dateDir targetPath
      h m s ns acts0 acts2 e r hres hpart hcopy hnc
    have hflow : handleBackupFlow cenv renv rotenv cfg rotSnaps rotNowNs repoRoot repoDir
        dateDir h m s ns
        = (none, some FlowErr.critical,
            acts0 ++ FsAct.writeFile (joinPath targetPath (str ".partial")) :: acts2
              ++ cleanupPartialBackup cenv targetPath) := by
      unfold handleBackupFlow
      rw [hres]
      dsimp only []
      rw [hpart]
      dsimp only []
      rw [hcopy]
      dsimp only []
      rw [if_neg (by simpa using hnc)]
    have hmem3 : FsAct.removeAll targetPath
        ∈ acts0 ++ FsAct.writeFile (joinPath targetPath (str ".partial")) :: acts2
          ++ cleanupPartialBackup cenv targetPath := by
      have hcl : FsAct.removeAll targetPath ∈ cleanupPartialBackup cenv targetPath := by
        unfold cleanupPartialBackup
        exact List.mem_cons_self _ _
      exact List.mem_append.mpr (Or.inr hcl)
    have hnw : FsAct.writeFile (joinPath targetPath (str ".done"))
        ∉ acts0 ++ FsAct.writeFile (joinPath targetPath (str ".partial")) :: acts2
          ++ cleanupPartialBackup cenv targetPath := by
      intro hmem
      rcases List.mem_append.mp hmem with hmem2 | hcl
      · rcases List.mem_append.mp hmem2 with h0 | hmem4
        · have hlem := createUniqueSnapshotDir_no_write renv repoDir dateDir h m s ns
          rw [hres] at hlem
          have hfalse := hlem _ h0
          simp [isWriteAct] at hfalse
        · rcases List.mem_cons.mp hmem4 with hp | h2
          · injection hp with hinj
            exact joinPath_marker_ne targetPath hinj.symm
          · have hlem := copyRepoSnapshot_no_write cenv repoRoot targetPath emptyBackupResult
            rw [hcopy] at hlem
            have hfalse := hlem _ h2
            simp [isWriteAct] at hfalse
      · have hfalse := cleanupPartialBackup_no_write cenv targetPath _ hcl
        simp [isWriteAct] at hfalse
    refine ⟨by rw [hflow], by rw [hflow], ?_, ?_⟩
    · rw [hflow]
      exact hmem3
    · rw [hflow]
      exact hnw

/-- Concrete copy-engine oracle for the C1 scenario: everything succeeds
except the Lstat of the single candidate file. -/
def cenvC1 : CopyEnv :=
  CopyEnv.mk
    (fun _ => Except.error GoErr.notExist)
    (fun p => if p = str "gitcommon" then Except.ok (FInfo.dir 0) else Except.error GoErr.notExist)
    (fun _ => Except.error GoErr.otherErr)
    (fun _ => none)
    (fun _ _ => none)
    (fun _ => none)
    (fun _ => none)
    (fun _ => none)
    (fun _ => some 1)
    (fun _ => [])
    (fun _ => none)
    (fun _ _ => Except.ok [])
    (Except.ok [str "f.txt"])
    ReadRes.errNotExist
    (Except.ok (str "gitdir", str "gitcommon"))

/-- Reservation oracle for the C1 scenario: every create succeeds. -/
def renvC1 : ReserveEnv := ReserveEnv.mk false (fun _ => MkdirRes.ok) (fun _ => MkdirRes.ok)

/-- The snapshot directory the C1 scenario reserves. -/
def targetC1 : Str :=
  joinPath (joinPath (str "bdir") (str "2024-01-02")) (formatTimeDir 1 2 3 4)

/-- C1 counterexample: Phase A succeeds and one Phase E lstat fails; the
error accumulates (skippedFiles 1, partialSuccess) and Critical is
returned, but contrary to the claim the .done marker is never written and
the snapshot directory is removed. -/
theorem handleBackupFlow_claim_counterexample :
    (copyDirRecursive cenvC1 (str "gitcommon") (joinPath targetC1 (str ".git"))
        emptyBackupResult).1 = Except.ok ()
    ∧ (copySelectedPath cenvC1 (str "repo") targetC1 (str "f.txt")).1 ≠ none
    ∧ ((copyRepoSnapshot cenvC1 (str "repo") targetC1 emptyBackupResult).2.1).skippedFiles = 1
    ∧ ((copyRepoSnapshot cenvC1 (str "repo") targetC1 emptyBackupResult).2.1).partialSuccess
        = true
    ∧ (handleBackupFlow cenvC1 renvC1 (RotEnv.mk fun _ => some 1) (RotCfg.mk 0 0 0 0 true)
        [] 0 (str "repo") (str "bdir") (str "2024-01-02") 1 2 3 4).1 = none
    ∧ (handleBackupFlow cenvC1 renvC1 (RotEnv.mk fun _ => some 1) (RotCfg.mk 0 0 0 0 true)
        [] 0 (str "repo") (str "bdir") (str "2024-01-02") 1 2 3 4).2.1
        = some FlowErr.critical
    ∧ FsAct.writeFile (joinPath targetC1 (str ".done"))
        ∉ (handleBackupFlow cenvC1 renvC1 (RotEnv.mk fun _ => some 1)
            (RotCfg.mk 0 0 0 0 true) [] 0 (str "repo") (str "bdir") (str "2024-01-02")
            1 2 3 4).2.2
    ∧ FsAct.removeAll targetC1
        ∈ (handleBackupFlow cenvC1 renvC1 (RotEnv.mk fun _ => some 1)
            (RotCfg.mk 0 0 0 0 true) [] 0 (str "repo") (str "bdir") (str "2024-01-02")
            1 2 3 4).2.2 := by
  refine ⟨rfl, by decide, by decide, by decide, by decide, by decide, by decide, by decide⟩

/-- Witness for C1 at the concrete scenario. -/
theorem handleBackupFlow_phaseE_witness :
    ((copySelectedFiles cenvC1 [str "f.txt"] (str "repo") targetC1
        emptyBackupResult).2.1).partialSuccess = true
    ∧ (handleBackupFlow cenvC1 renvC1 (RotEnv.mk fun _ => some 1) (RotCfg.mk 0 0 0 0 true)
        [] 0 (str "repo") (str "bdir") (str "2024-01-02") 1 2 3 4).2.1
        = some FlowErr.critical := by
  have ha := handleBackupFlow_phaseE.1 cenvC1 [str "f.txt"] (str "repo") targetC1
    emptyBackupResult (str "f.txt") (by decide) (by decide)
  have hb := handleBackupFlow_phaseE.2 cenvC1 renvC1 (RotEnv.mk fun _ => some 1)
    (RotCfg.mk 0 0 0 0 true) [] 0 (str "repo") (str "bdir") (str "2024-01-02") targetC1
    1 2 3 4
    (createUniqueSnapshotDir renvC1 (str "bdir") (str "2024-01-02") 1 2 3 4).2
    (copyRepoSnapshot cenvC1 (str "repo") targetC1 emptyBackupResult).2.2
    GoErr.notExist
    (copyRepoSnapshot cenvC1 (str "repo") targetC1 emptyBackupResult).2.1
    rfl (by decide) rfl (by decide)
  exact ⟨ha.2.2, hb.2.1⟩

end Devback
